import Mathlib

/-!
Examples of cryptography: a verification development.

Shallow embedding of the Go examples

* `cryptography/post-quantum-cryptography/kyberExample.go`  (`KyberExample`)
* `post-quantum-cryptography/dilithiumExample.go`  (`hexHash`, `DilithiumKeyGeneration`)
* `blockchain/hyperledger/fabricExample.go`  (`SmartContract.CreateAsset`)
* `cryptography/symmetric-key/symmetricKeyAES.go`  (`EncryptAES`, `DecryptAES`)

Conventions.  A Go `byte` is a `Fin 256` (arithmetic wraps modulo 256), a
`[]byte` and a Go `string` that is used as raw bytes are `List Byte`.  A Go
`error` is `Option String` (`none` is `nil`, `some m` an error whose
`Error()` text is `m`).  Functions that print, log or call the primitive
provider are embedded in `Run`, which records the events of the run in
order and whether the function returned or panicked.
-/

namespace CryptoExamples

/-- A Go byte. -/
abbrev Byte := Fin 256

/-- A Go byte slice. -/
abbrev Bytes := List Byte

/-- A Go error value: nil, or an error with its message. -/
abbrev GoErr := Option String

/-- An opaque key of the KEM provider (an interface value): nil, or a handle. -/
abbrev Key := Option Bytes

deriving instance DecidableEq for Except

/-- A key object of the signature provider.  The only thing the examples do
with such a key is call its `MarshalBinary` method, so a key is represented by
what that call returns. -/
structure SignKey where
  MarshalBinary : Bytes × GoErr
  deriving DecidableEq, Repr

/-! ## Runs: events, returning and panicking -/

/-- A call into the primitive provider, with its arguments. -/
inductive Call
  | GenerateKeyPair
  | Encapsulate (pk : Key)
  | EncapsulationSeedSize
  | Decapsulate (sk : Key) (ct : Bytes)
  | DeriveKey (seed : Bytes)
  | MarshalBinary (key : SignKey)
  deriving DecidableEq, Repr

/-- An observable step of a run. -/
inductive Event
  | stdout (text : String)
  | log (msg : String)
  | call (c : Call)
  deriving DecidableEq, Repr

/-- How a Go function ended. -/
inductive Outcome (α : Type)
  | returned (v : α)
  | panicked (msg : String)
  deriving DecidableEq, Repr

/-- A run of a Go function: the events in order, and how it ended. -/
structure Run (α : Type) where
  events : List Event
  outcome : Outcome α
  deriving DecidableEq, Repr

/-- Sequencing: a panic stops the run, later statements add no events. -/
def Run.bind {α β : Type} (m : Run α) (f : α → Run β) : Run β :=
  match m.outcome with
  | .panicked msg => ⟨m.events, .panicked msg⟩
  | .returned a => ⟨m.events ++ (f a).events, (f a).outcome⟩

instance : Monad Run where
  pure a := ⟨[], .returned a⟩
  bind := Run.bind

/-- Text written by `fmt.Println` or `fmt.Printf`. -/
def stdout (text : String) : Run Unit := ⟨[.stdout text], .returned ()⟩

/-- Message of a `log.Printf`; `log.Printf` returns normally, it does not
stop the caller (the logger adds a time stamp, which is left out). -/
def logPrintf (msg : String) : Run Unit := ⟨[.log msg], .returned ()⟩

/-- A method call on a nil interface value. -/
def nilDereference {α : Type} : Run α :=
  ⟨[], .panicked "runtime error: invalid memory address or nil pointer dereference"⟩

/-- A provider call that returned `v`. -/
def called {α : Type} (c : Call) (v : α) : Run α := ⟨[.call c], .returned v⟩

/-! ## The KEM provider and `KyberExample` -/

/-- The part of the provider's KEM scheme interface that `KyberExample` uses,
with the sizes a scheme declares.  `GenerateKeyPair` and `Encapsulate` draw
randomness inside the provider; a value of this structure fixes what they
return in the run.  The components of `Encapsulate` are in the order in which
`KyberExample` binds them: `sharedSecretSender, ciphertext, err`. -/
structure KemScheme where
  GenerateKeyPair : Key × Key × GoErr
  Encapsulate : Key → Bytes × Bytes × GoErr
  Decapsulate : Key → Bytes → Bytes × GoErr
  EncapsulationSeedSize : Nat
  CiphertextSize : Nat
  SharedKeySize : Nat

/-- The call `scheme.GenerateKeyPair()`. -/
def KemScheme.callGenerateKeyPair : Option KemScheme → Run (Key × Key × GoErr)
  | none => nilDereference
  | some s => called .GenerateKeyPair s.GenerateKeyPair

/-- The call `scheme.Encapsulate(pk)`. -/
def KemScheme.callEncapsulate : Option KemScheme → Key → Run (Bytes × Bytes × GoErr)
  | none, _ => nilDereference
  | some s, pk => called (.Encapsulate pk) (s.Encapsulate pk)

/-- The call `scheme.EncapsulationSeedSize()`. -/
def KemScheme.callEncapsulationSeedSize : Option KemScheme → Run Nat
  | none => nilDereference
  | some s => called .EncapsulationSeedSize s.EncapsulationSeedSize

/-- The call `scheme.Decapsulate(sk, ct)`. -/
def KemScheme.callDecapsulate : Option KemScheme → Key → Bytes → Run (Bytes × GoErr)
  | none, _, _ => nilDereference
  | some s, sk, ct => called (.Decapsulate sk ct) (s.Decapsulate sk ct)

/-- The text of `%v` for an error. -/
def GoErr.text : GoErr → String
  | none => "<nil>"
  | some m => m

/-- The function `KyberExample` of kyberExample.go.  `ByName` is the provider's registry
`schemes.ByName`. -/
def KyberExample (ByName : String → Option KemScheme) : Run Unit := do
  let schemeName := "Kyber768"
  let scheme := ByName schemeName
  (if scheme.isNone then logPrintf ("Scheme " ++ schemeName ++ " not found") else pure ())
  stdout "Generating keypair for recipient...\n"
  let (publicKey, privateKey, err) ← KemScheme.callGenerateKeyPair scheme
  (if err.isSome then logPrintf ("Key generation failed: " ++ GoErr.text err) else pure ())
  stdout "Recipient's keypair generated successfully!\n"
  stdout "Sender is encapsulating shared secret...\n"
  let (sharedSecretSender, ciphertext, err) ← KemScheme.callEncapsulate scheme publicKey
  (if err.isSome then logPrintf ("Encapsulation failed: " ++ GoErr.text err) else pure ())
  stdout "Shared secret encapsulated successfully!\n"
  let expectedCiphertextSize ← KemScheme.callEncapsulationSeedSize scheme
  stdout ("Expected Ciphertext Size: " ++ toString expectedCiphertextSize ++ " bytes\n")
  stdout ("Actual Ciphertext Size: " ++ toString ciphertext.length ++ " bytes\n")
  (if ciphertext.length ≠ expectedCiphertextSize then
    logPrintf ("Ciphertext size mismatch: Expected " ++ toString expectedCiphertextSize
      ++ ", got " ++ toString ciphertext.length)
  else pure ())
  stdout "Recipient is decapsulating shared secret...\n"
  let (sharedSecretRecipient, err) ← KemScheme.callDecapsulate scheme privateKey ciphertext
  (if err.isSome then logPrintf ("Decapsulation failed: " ++ GoErr.text err) else pure ())
  stdout "Shared secret decapsulated successfully!\n"
  (if sharedSecretSender = sharedSecretRecipient then
    stdout "Shared secrets match! Key exchange successful!\n"
  else
    stdout "Shared secrets do not match! Key exchange failed!\n")

/-- A KEM scheme with the declared sizes of the scenario "DemoKEM768": seed
length 32, ciphertext length 1088, shared-secret length 32.  Its
`Encapsulate` returns a 32-byte secret and a 1088-byte ciphertext, and its
`Decapsulate` returns that secret on that ciphertext under the matching
private key (the round-trip law), an error otherwise. -/
def demoKEM768 : KemScheme where
  GenerateKeyPair := (some [1], some [2], none)
  Encapsulate := fun pk =>
    if pk = some [1] then (List.replicate 32 7, List.replicate 1088 9, none)
    else ([], [], some "kem: type mismatch")
  Decapsulate := fun sk ct =>
    if sk = some [2] ∧ ct = List.replicate 1088 9 then (List.replicate 32 7, none)
    else ([], some "kem: ciphertext size mismatch")
  EncapsulationSeedSize := 32
  CiphertextSize := 1088
  SharedKeySize := 32

/-- A registry that knows the one scheme. -/
def demoRegistry (s : KemScheme) : String → Option KemScheme :=
  fun name => if name = "Kyber768" then some s else none

/-! ## SHAKE-256 and `hexHash`

`sha3.NewShake256` of the hash library: the Keccak sponge with rate 136
bytes, domain-separation byte 0x1f, over the permutation Keccak-f[1600]
(FIPS 202).  The state is 25 lanes of 64 bits, lane `x + 5 * y` at column `x`
and row `y`; lanes are natural numbers below `2 ^ 64`. -/

/-- All ones in 64 bits. -/
def mask64 : Nat := 2 ^ 64 - 1

/-- Rotate a 64-bit lane left by `n` bits, `n < 64`. -/
def rotl64 (v n : Nat) : Nat := ((v <<< n) ||| (v >>> (64 - n))) % 2 ^ 64

/-- The rotation offsets of the step rho: row `y` of the table holds the
offsets of the lanes at columns 0 to 4 of that row. -/
def rotationOffsets : List (List Nat) :=
  [[0, 1, 62, 28, 27],
   [36, 44, 6, 55, 20],
   [3, 10, 43, 25, 39],
   [41, 45, 15, 21, 8],
   [18, 2, 61, 56, 14]]

/-- The round constants of the step iota. -/
def roundConstants : List Nat :=
  [0x1, 0x8082, 0x800000000000808a,
   0x8000000080008000, 0x808b, 0x80000001,
   0x8000000080008081, 0x8000000000008009, 0x8a,
   0x88, 0x80008009, 0x8000000a,
   0x8000808b, 0x800000000000008b, 0x8000000000008089,
   0x8000000000008003, 0x8000000000008002, 0x8000000000000080,
   0x800a, 0x800000008000000a, 0x8000000080008081,
   0x8000000000008080, 0x80000001, 0x8000000080008008]

/-- One round of Keccak-f[1600]: theta, rho and pi, chi, iota. -/
def keccakRound (a : List Nat) (rc : Nat) : List Nat :=
  let c := (List.range 5).map fun x =>
    a.getD x 0 ^^^ a.getD (x + 5) 0 ^^^ a.getD (x + 10) 0 ^^^ a.getD (x + 15) 0 ^^^ a.getD (x + 20) 0
  let d := (List.range 5).map fun x =>
    c.getD ((x + 4) % 5) 0 ^^^ rotl64 (c.getD ((x + 1) % 5) 0) 1
  let t := (List.range 25).map fun i => a.getD i 0 ^^^ d.getD (i % 5) 0
  let b := (List.range 25).map fun i =>
    let src := (i % 5 + 3 * (i / 5)) % 5 + 5 * (i % 5)
    rotl64 (t.getD src 0) ((rotationOffsets.getD (src / 5) []).getD (src % 5) 0)
  let e := (List.range 25).map fun i =>
    b.getD i 0 ^^^ ((b.getD ((i % 5 + 1) % 5 + 5 * (i / 5)) 0 ^^^ mask64)
      &&& b.getD ((i % 5 + 2) % 5 + 5 * (i / 5)) 0)
  match e with
  | [] => []
  | e0 :: rest => (e0 ^^^ rc) :: rest

/-- The permutation Keccak-f[1600]: 24 rounds. -/
def keccakF1600 (a : List Nat) : List Nat := roundConstants.foldl keccakRound a

/-- The rate of SHAKE-256 in bytes. -/
def rate : Nat := 136

/-- State of the sponge: the lanes, and the position in the current block. -/
structure ShakeState where
  a : List Nat
  n : Nat

/-- Xor the byte `b` into byte position `pos` of the state (little endian
within a lane). -/
def xorByteAt : List Nat → Nat → Byte → List Nat
  | [], _, _ => []
  | lane :: rest, pos, b =>
    if pos < 8 then (lane ^^^ (b.val <<< (8 * pos))) :: rest
    else lane :: xorByteAt rest (pos - 8) b

/-- The byte at position `pos` of the state. -/
def byteAt (a : List Nat) (pos : Nat) : Byte :=
  Fin.ofNat ((a.getD (pos / 8) 0 >>> (8 * (pos % 8))) % 256)

/-- The state of `sha3.NewShake256()`. -/
def NewShake256 : ShakeState := ⟨List.replicate 25 0, 0⟩

/-- The method `Write`: absorb the input, permuting whenever a block is full. -/
def ShakeState.Write : ShakeState → Bytes → ShakeState
  | d, [] => d
  | d, b :: p =>
    let a := xorByteAt d.a d.n b
    if d.n + 1 = rate then ShakeState.Write ⟨keccakF1600 a, 0⟩ p
    else ShakeState.Write ⟨a, d.n + 1⟩ p

/-- End of absorbing: domain separation 0x1f, final bit 0x80, permutation. -/
def ShakeState.padAndPermute (d : ShakeState) : ShakeState :=
  ⟨keccakF1600 (xorByteAt (xorByteAt d.a d.n 0x1f) (rate - 1) 0x80), 0⟩

/-- Squeeze `k` bytes from a state that has finished absorbing, permuting
whenever the block is used up. -/
def ShakeState.squeeze : Nat → ShakeState → Bytes
  | 0, _ => []
  | k + 1, d =>
    let d1 : ShakeState := if d.n = rate then ⟨keccakF1600 d.a, 0⟩ else d
    byteAt d1.a d1.n :: ShakeState.squeeze k ⟨d1.a, d1.n + 1⟩

/-- The method `Read` on a state that was absorbing, for an output buffer of
`k` bytes: the buffer is filled. -/
def ShakeState.Read (d : ShakeState) (k : Nat) : Bytes :=
  ShakeState.squeeze k d.padAndPermute

/-- The table of `encoding/hex`. -/
def hextable : List Char := "0123456789abcdef".toList

/-- The function `hex.EncodeToString`: two characters a byte, high nibble first. -/
def hexEncodeToString (src : Bytes) : String :=
  String.mk (src.flatMap fun v => [hextable.getD (v.val >>> 4) '0', hextable.getD (v.val &&& 0x0f) '0'])

/-- The function `hexHash` of dilithiumExample.go: SHAKE-256 of the input, the first 16
bytes of output, in hex. -/
def hexHash (inp : Bytes) : String :=
  let h := NewShake256
  let h := h.Write inp
  let ret := h.Read 16
  hexEncodeToString ret

/-! ## SHAKE-256 as FIPS 202 defines it

The sponge construction on whole blocks, to compare the streaming `Write` and
`Read` of the hash library with: the message is padded to a multiple of the
rate, every block is xored into the state and the state permuted, and the
output is read off the state, block by block. -/

/-- The padded message: the suffix 1111 of SHAKE and the padding pad10*1, on
bytes: a byte 0x1f, zero bytes, and a last byte 0x80, up to the next multiple
of the rate; one byte 0x9f when only one byte is missing. -/
def shakePad (m : Bytes) : Bytes :=
  if rate - m.length % rate = 1 then m ++ [0x9f]
  else m ++ [0x1f] ++ List.replicate (rate - m.length % rate - 2) 0 ++ [0x80]

/-- The value of a lane given by its bytes, least significant byte first. -/
def laneOfBytes : Bytes → Nat
  | [] => 0
  | b :: bs => b.val + 256 * laneOfBytes bs

/-- Xor a block into the state: every lane with the value of its eight bytes
of the block. -/
def xorBlock : List Nat → Bytes → List Nat
  | [], _ => []
  | lane :: rest, block => (lane ^^^ laneOfBytes (block.take 8)) :: xorBlock rest (block.drop 8)

/-- Absorb `k` blocks of the padded message. -/
def absorbBlocks : Nat → List Nat → Bytes → List Nat
  | 0, a, _ => a
  | k + 1, a, p => absorbBlocks k (keccakF1600 (xorBlock a (p.take rate))) (p.drop rate)

/-- The first `rate` bytes of the state, every lane least significant byte
first. -/
def stateBytes (a : List Nat) : Bytes :=
  (List.range rate).map fun pos => Fin.ofNat (a.getD (pos / 8) 0 / 256 ^ (pos % 8) % 256)

/-- The output of `k` blocks: the bytes of the state, then the same of the
permuted state. -/
def squeezeBlocks : Nat → List Nat → Bytes
  | 0, _ => []
  | k + 1, a => stateBytes a ++ squeezeBlocks k (keccakF1600 a)

/-- The function SHAKE256(M, d) for a message of whole bytes and an output of
`d` bytes. -/
def SHAKE256 (m : Bytes) (d : Nat) : Bytes :=
  (squeezeBlocks (d / rate + 1)
    (absorbBlocks ((shakePad m).length / rate) (List.replicate 25 0) (shakePad m))).take d

/-- Xor the bytes `bs` into the state at the byte positions `pos`, `pos + 1`,
and so on: what `Write` does to the lanes between two permutations. -/
def xorBytesAt : List Nat → Nat → Bytes → List Nat
  | a, _, [] => a
  | a, pos, b :: bs => xorBytesAt (xorByteAt a pos b) (pos + 1) bs

/-! ## The signature provider and `DilithiumKeyGeneration` -/

/-- The part of the provider's signature scheme interface that
`DilithiumKeyGeneration` uses, with the seed size a scheme declares.
`DeriveKey` has no error result: it returns two keys (interface values, which
may be nil) or panics inside the provider, as it does on a seed it does not
accept. -/
structure SignScheme where
  DeriveKey : Bytes → Outcome (Option SignKey × Option SignKey)
  SeedSize : Nat

/-- The contract of a provider that checks the seed: `DeriveKey` panics on
every seed whose length is not the seed size the scheme declares. -/
def SignScheme.rejectsOtherSeedLengths (s : SignScheme) : Prop :=
  ∀ seed : Bytes, seed.length ≠ s.SeedSize → ∃ msg, s.DeriveKey seed = .panicked msg

/-- The call `scheme.DeriveKey(seed)`. -/
def SignScheme.callDeriveKey : Option SignScheme → Bytes → Run (Option SignKey × Option SignKey)
  | none, _ => nilDereference
  | some s, seed =>
    match s.DeriveKey seed with
    | .returned keys => called (.DeriveKey seed) keys
    | .panicked msg => ⟨[.call (.DeriveKey seed)], .panicked msg⟩

/-- The call `key.MarshalBinary()`. -/
def SignKey.callMarshalBinary : Option SignKey → Run (Bytes × GoErr)
  | none => nilDereference
  | some k => called (.MarshalBinary k) k.MarshalBinary

/-- The seed `DilithiumKeyGeneration` builds: a zeroed `[32]byte`, then
`seed[i] = byte(i)` for `i` from 0 up to `len(seed)`. -/
def fixedSeed : Bytes :=
  (List.range 32).foldl (fun seed i => seed.set i (Fin.ofNat i)) (List.replicate 32 0)

/-- The function `DilithiumKeyGeneration` of dilithiumExample.go.  `ByName` is the
provider's registry `schemes.ByName`. -/
def DilithiumKeyGeneration (ByName : String → Option SignScheme)
    (schemeName expectedPublicKeyHex expectedSecretKeyHex : String) : Run Unit := do
  let scheme := ByName schemeName
  (if scheme.isNone then logPrintf ("Scheme " ++ schemeName ++ " not found") else pure ())
  let seed := fixedSeed
  let (pk, sk) ← SignScheme.callDeriveKey scheme seed
  let (ppk, err) ← SignKey.callMarshalBinary pk
  (if err.isSome then logPrintf ("Failed to marshal public key: " ++ GoErr.text err) else pure ())
  let (psk, err) ← SignKey.callMarshalBinary sk
  (if err.isSome then logPrintf ("Failed to marshal secret key: " ++ GoErr.text err) else pure ())
  let pkh := hexHash ppk
  let skh := hexHash psk
  stdout ("Generated Public Key Hash: " ++ pkh ++ "\n")
  stdout ("Generated Secret Key Hash: " ++ skh ++ "\n")
  (if pkh ≠ expectedPublicKeyHex then
    logPrintf ("Expected public key hash: " ++ expectedPublicKeyHex ++ ", but got: " ++ pkh)
  else pure ())
  (if skh ≠ expectedSecretKeyHex then
    logPrintf ("Expected secret key hash: " ++ expectedSecretKeyHex ++ ", but got: " ++ skh)
  else pure ())
  stdout "Key generation and verification successful!\n"

/-- A signature scheme for the examples that declares the seed size
`seedSize`: on a seed of that length the public key marshals to the seed and
the secret key to the reversed seed, on a seed of another length `DeriveKey`
panics. -/
def demoSign (seedSize : Nat) : SignScheme where
  DeriveKey := fun seed =>
    if seed.length = seedSize then .returned (some ⟨(seed, none)⟩, some ⟨(seed.reverse, none)⟩)
    else .panicked ("bad seed length: " ++ toString seed.length)
  SeedSize := seedSize

/-- A registry of signature schemes that knows the one scheme, as "Dilithium2". -/
def demoSignRegistry (s : SignScheme) : String → Option SignScheme :=
  fun name => if name = "Dilithium2" then some s else none

/-! ## The ledger and `SmartContract.CreateAsset` -/

/-- The `Asset` struct of fabricExample.go. -/
structure Asset where
  ID : String
  Name : String
  deriving DecidableEq, Repr

/-- The ledger as the chaincode stub shows it: the world state, a map from key
to bytes (`none`: the key has no value), and the faults of the peer, that is
the error a read of a key or a write of a value meets, if any. -/
structure Stub where
  state : String → Option Bytes
  readFault : String → GoErr
  writeFault : String → Bytes → GoErr

/-- The method `GetState` of the stub: the value (nil when the key has none)
and the error. -/
def Stub.GetState (stub : Stub) (key : String) : Option Bytes × GoErr :=
  match stub.readFault key with
  | some e => (none, some e)
  | none => (stub.state key, none)

/-- The method `PutState` of the stub: the ledger after the call, and the
error.  A write that fails changes nothing. -/
def Stub.PutState (stub : Stub) (key : String) (value : Bytes) : Stub × GoErr :=
  match stub.writeFault key value with
  | some e => (stub, some e)
  | none => ({ stub with state := fun k => if k = key then some value else stub.state k }, none)

/-- The method `SmartContract.CreateAsset` of fabricExample.go: the ledger after the
call, and the error returned.  `jsonMarshal` is `json.Marshal` at type
`Asset`. -/
def CreateAsset (jsonMarshal : Asset → Bytes × GoErr) (stub : Stub) (id name : String) :
    Stub × GoErr :=
  let asset : Asset := { ID := id, Name := name }
  let (assetJSON, err) := stub.GetState id
  if err.isSome then
    (stub, some ("failed to read from world state: " ++ GoErr.text err))
  else if assetJSON.isSome then
    (stub, some ("asset " ++ id ++ " already exists"))
  else
    let (assetJSONBytes, err) := jsonMarshal asset
    if err.isSome then
      (stub, some ("failed to marshal asset: " ++ GoErr.text err))
    else
      stub.PutState id assetJSONBytes

/-- The bytes of a string of ASCII characters. -/
def asciiBytes (s : String) : Bytes := s.toList.map fun c => Fin.ofNat c.toNat

/-- An encoder for the examples: the JSON object with the members `ID` and
`Name`, right for strings in which no character needs an escape. -/
def plainJSON (a : Asset) : Bytes × GoErr :=
  (asciiBytes ("\x7b\"ID\":\"" ++ a.ID ++ "\",\"Name\":\"" ++ a.Name ++ "\"\x7d"), none)

/-- A ledger without faults that holds the one entry `asset1`. -/
def demoLedger : Stub where
  state := fun k => if k = "asset1" then some (plainJSON ⟨"asset1", "Asset One"⟩).1 else none
  readFault := fun _ => none
  writeFault := fun _ _ => none

/-! ## AES (FIPS 197), the block cipher of `crypto/aes` -/

/-- The block size of AES in bytes, `aes.BlockSize`. -/
def BlockSize : Nat := 16

/-- The substitution table. -/
def sbox : List Byte :=
  [0x63, 0x7c, 0x77, 0x7b, 0xf2, 0x6b, 0x6f, 0xc5, 0x30, 0x01, 0x67, 0x2b, 0xfe, 0xd7, 0xab, 0x76,
   0xca, 0x82, 0xc9, 0x7d, 0xfa, 0x59, 0x47, 0xf0, 0xad, 0xd4, 0xa2, 0xaf, 0x9c, 0xa4, 0x72, 0xc0,
   0xb7, 0xfd, 0x93, 0x26, 0x36, 0x3f, 0xf7, 0xcc, 0x34, 0xa5, 0xe5, 0xf1, 0x71, 0xd8, 0x31, 0x15,
   0x04, 0xc7, 0x23, 0xc3, 0x18, 0x96, 0x05, 0x9a, 0x07, 0x12, 0x80, 0xe2, 0xeb, 0x27, 0xb2, 0x75,
   0x09, 0x83, 0x2c, 0x1a, 0x1b, 0x6e, 0x5a, 0xa0, 0x52, 0x3b, 0xd6, 0xb3, 0x29, 0xe3, 0x2f, 0x84,
   0x53, 0xd1, 0x00, 0xed, 0x20, 0xfc, 0xb1, 0x5b, 0x6a, 0xcb, 0xbe, 0x39, 0x4a, 0x4c, 0x58, 0xcf,
   0xd0, 0xef, 0xaa, 0xfb, 0x43, 0x4d, 0x33, 0x85, 0x45, 0xf9, 0x02, 0x7f, 0x50, 0x3c, 0x9f, 0xa8,
   0x51, 0xa3, 0x40, 0x8f, 0x92, 0x9d, 0x38, 0xf5, 0xbc, 0xb6, 0xda, 0x21, 0x10, 0xff, 0xf3, 0xd2,
   0xcd, 0x0c, 0x13, 0xec, 0x5f, 0x97, 0x44, 0x17, 0xc4, 0xa7, 0x7e, 0x3d, 0x64, 0x5d, 0x19, 0x73,
   0x60, 0x81, 0x4f, 0xdc, 0x22, 0x2a, 0x90, 0x88, 0x46, 0xee, 0xb8, 0x14, 0xde, 0x5e, 0x0b, 0xdb,
   0xe0, 0x32, 0x3a, 0x0a, 0x49, 0x06, 0x24, 0x5c, 0xc2, 0xd3, 0xac, 0x62, 0x91, 0x95, 0xe4, 0x79,
   0xe7, 0xc8, 0x37, 0x6d, 0x8d, 0xd5, 0x4e, 0xa9, 0x6c, 0x56, 0xf4, 0xea, 0x65, 0x7a, 0xae, 0x08,
   0xba, 0x78, 0x25, 0x2e, 0x1c, 0xa6, 0xb4, 0xc6, 0xe8, 0xdd, 0x74, 0x1f, 0x4b, 0xbd, 0x8b, 0x8a,
   0x70, 0x3e, 0xb5, 0x66, 0x48, 0x03, 0xf6, 0x0e, 0x61, 0x35, 0x57, 0xb9, 0x86, 0xc1, 0x1d, 0x9e,
   0xe1, 0xf8, 0x98, 0x11, 0x69, 0xd9, 0x8e, 0x94, 0x9b, 0x1e, 0x87, 0xe9, 0xce, 0x55, 0x28, 0xdf,
   0x8c, 0xa1, 0x89, 0x0d, 0xbf, 0xe6, 0x42, 0x68, 0x41, 0x99, 0x2d, 0x0f, 0xb0, 0x54, 0xbb, 0x16]

/-- Bytewise xor of two byte strings. -/
def xorBytes (a b : Bytes) : Bytes := List.zipWith (fun x y => x ^^^ y) a b

/-- Substitution of every byte. -/
def subBytes (s : Bytes) : Bytes := s.map fun b => sbox.getD b.val 0

/-- Multiplication by x in the field of AES. -/
def xtime (b : Byte) : Byte := if b.val < 128 then b * 2 else (b * 2) ^^^ 0x1b

/-- The round constants of the key schedule. -/
def rcon : List Byte := [0x01, 0x02, 0x04, 0x08, 0x10, 0x20, 0x40, 0x80, 0x1b, 0x36]

/-- One word more of the key schedule, word `i`, from the words before it. -/
def expandStep (nk : Nat) (w : List Bytes) (i : Nat) : List Bytes :=
  let prev := w.getD (i - 1) []
  let temp :=
    if i % nk = 0 then xorBytes (subBytes (prev.rotateLeft 1)) [rcon.getD (i / nk - 1) 0, 0, 0, 0]
    else if nk > 6 ∧ i % nk = 4 then subBytes prev
    else prev
  w ++ [xorBytes (w.getD (i - nk) []) temp]

/-- The key schedule: `4 * (rounds + 1)` words of four bytes, `rounds` being
the number of key words plus 6. -/
def expandKey (key : Bytes) : List Bytes :=
  let nk := key.length / 4
  (List.range' nk (4 * (nk + 7) - nk)).foldl (expandStep nk)
    ((List.range nk).map fun i => (key.drop (4 * i)).take 4)

/-- The round key of round `r`. -/
def roundKey (w : List Bytes) (r : Nat) : Bytes := ((w.drop (4 * r)).take 4).flatten

/-- The step ShiftRows on a state in column order (byte `r + 4 * c` is row
`r`, column `c`). -/
def shiftRows (s : Bytes) : Bytes :=
  (List.range 16).map fun i => s.getD (4 * ((i / 4 + i % 4) % 4) + i % 4) 0

/-- The step MixColumns on one column. -/
def mixColumn : Bytes → Bytes
  | [s0, s1, s2, s3] =>
    [xtime s0 ^^^ (xtime s1 ^^^ s1) ^^^ s2 ^^^ s3,
     s0 ^^^ xtime s1 ^^^ (xtime s2 ^^^ s2) ^^^ s3,
     s0 ^^^ s1 ^^^ xtime s2 ^^^ (xtime s3 ^^^ s3),
     (xtime s0 ^^^ s0) ^^^ s1 ^^^ s2 ^^^ xtime s3]
  | c => c

/-- The step MixColumns. -/
def mixColumns (s : Bytes) : Bytes :=
  (List.range 4).flatMap fun c => mixColumn ((s.drop (4 * c)).take 4)

/-- Encryption of one block under a key of 16, 24 or 32 bytes. -/
def encryptBlock (key src : Bytes) : Bytes :=
  let w := expandKey key
  let nr := key.length / 4 + 6
  let s := xorBytes src (roundKey w 0)
  let s := (List.range' 1 (nr - 1)).foldl
    (fun s r => xorBytes (mixColumns (shiftRows (subBytes s))) (roundKey w r)) s
  xorBytes (shiftRows (subBytes s)) (roundKey w nr)

/-- The function `aes.NewCipher`: the block cipher for the key, of which the
examples use the method `Encrypt`; a key of another length is
`aes.KeySizeError`. -/
def NewCipher (key : Bytes) : Except String (Bytes → Bytes) :=
  if key.length = 16 ∨ key.length = 24 ∨ key.length = 32 then .ok (encryptBlock key)
  else .error ("crypto/aes: invalid key size " ++ toString key.length)

/-! ## CFB mode, as `crypto/cipher` -/

/-- The stream state of `crypto/cipher`: the block cipher, the shift register
`next`, the key stream block `out` and how much of it is used. -/
structure cfb where
  b : Bytes → Bytes
  next : Bytes
  out : Bytes
  outUsed : Nat
  decrypt : Bool

/-- The constructor of both `cipher.NewCFBEncrypter` and
`cipher.NewCFBDecrypter`; it panics on an IV of the wrong length. -/
def newCFB (block : Bytes → Bytes) (iv : Bytes) (decrypt : Bool) : Outcome cfb :=
  if iv.length ≠ BlockSize then .panicked "cipher.newCFB: IV length must equal block size"
  else .returned ⟨block, iv, List.replicate BlockSize 0, BlockSize, decrypt⟩

/-- The method `XORKeyStream`, byte by byte: a new key stream block is made
from the register when the old one is used up, the byte is xored with the key
stream, and the ciphertext byte (the output when encrypting, the input when
decrypting) goes into the register. -/
def cfb.XORKeyStream : cfb → Bytes → Bytes
  | _, [] => []
  | x, s :: src =>
    let x1 : cfb := if x.outUsed = BlockSize then { x with out := x.b x.next, outUsed := 0 } else x
    let d := s ^^^ x1.out.getD x1.outUsed 0
    let c := if x1.decrypt then s else d
    d :: cfb.XORKeyStream { x1 with next := x1.next.set x1.outUsed c, outUsed := x1.outUsed + 1 } src

/-! ## base64 with the URL alphabet and padding, `base64.URLEncoding` -/

/-- The alphabet of `base64.URLEncoding`. -/
def encodeURL : Bytes :=
  asciiBytes "ABCDEFGHIJKLMNOPQRSTUVWXYZabcdefghijklmnopqrstuvwxyz0123456789-_"

/-- The padding character `=`. -/
def padChar : Byte := 61

/-- The character of the alphabet for the low six bits of `v`. -/
def encodeChar (v : Nat) : Byte := encodeURL.getD (v &&& 0x3f) 0

/-- The method `EncodeToString`: three bytes make four characters; a rest of
one or two bytes makes two or three characters and padding. -/
def EncodeToString : Bytes → Bytes
  | a :: b :: c :: rest =>
    let val := a.val <<< 16 ||| b.val <<< 8 ||| c.val
    encodeChar (val >>> 18) :: encodeChar (val >>> 12) :: encodeChar (val >>> 6) :: encodeChar val
      :: EncodeToString rest
  | [a, b] =>
    let val := a.val <<< 16 ||| b.val <<< 8
    [encodeChar (val >>> 18), encodeChar (val >>> 12), encodeChar (val >>> 6), padChar]
  | [a] =>
    let val := a.val <<< 16
    [encodeChar (val >>> 18), encodeChar (val >>> 12), padChar, padChar]
  | [] => []

/-- The decoding table: the index of a character of the alphabet, 0xff for
any other byte. -/
def decodeMap (c : Byte) : Nat :=
  if encodeURL.indexOf c < 64 then encodeURL.indexOf c else 0xff

/-- The error text of `base64.CorruptInputError`. -/
def corruptInputError (offset : Nat) : String :=
  "illegal base64 data at input byte " ++ toString offset

/-- The bytes of one quantum of two, three or four characters, whose values
are in `dbuf`: one byte less than there are characters. -/
def quantumBytes (dbuf : List Nat) : Bytes :=
  let val := dbuf.getD 0 0 <<< 18 ||| dbuf.getD 1 0 <<< 12 ||| dbuf.getD 2 0 <<< 6 ||| dbuf.getD 3 0
  ([val >>> 16, val >>> 8, val].map fun v => (Fin.ofNat v : Byte)).take (dbuf.length - 1)

/-- Skip line feeds and carriage returns from input position `si` on. -/
def skipNewlines : Bytes → Nat → Bytes × Nat
  | [], si => ([], si)
  | c :: rest, si => if c = 10 ∨ c = 13 then skipNewlines rest (si + 1) else (c :: rest, si)

/-- The end of a padded quantum: after the padding only line breaks may follow. -/
def afterPadding (dst src : Bytes) (si : Nat) : Except String Bytes :=
  match skipNewlines src si with
  | ([], _) => .ok dst
  | (_ :: _, si1) => .error (corruptInputError si1)

/-- The decoder from input position `si` on, the values of the characters
read of the current quantum in `dbuf` and the bytes decoded so far in `dst`.
Line breaks are skipped anywhere; padding is accepted only to fill the last
quantum to four characters. -/
def decodeFrom : Bytes → Nat → List Nat → Bytes → Except String Bytes
  | [], si, dbuf, dst =>
    if dbuf.length = 0 then .ok dst else .error (corruptInputError (si - dbuf.length))
  | c :: src, si, dbuf, dst =>
    if decodeMap c ≠ 0xff then
      if dbuf.length = 3 then decodeFrom src (si + 1) [] (dst ++ quantumBytes (dbuf ++ [decodeMap c]))
      else decodeFrom src (si + 1) (dbuf ++ [decodeMap c]) dst
    else if c = 10 ∨ c = 13 then decodeFrom src (si + 1) dbuf dst
    else if c ≠ padChar then .error (corruptInputError si)
    else if dbuf.length < 2 then .error (corruptInputError si)
    else if dbuf.length = 2 then
      match skipNewlines src (si + 1) with
      | ([], si1) => .error (corruptInputError si1)
      | (c2 :: rest, si1) =>
        if c2 ≠ padChar then .error (corruptInputError (si1 - 1))
        else afterPadding (dst ++ quantumBytes dbuf) rest (si1 + 1)
    else afterPadding (dst ++ quantumBytes dbuf) src (si + 1)

/-- The method `DecodeString`. -/
def DecodeString (s : Bytes) : Except String Bytes := decodeFrom s 0 [] []

/-! ## `EncryptAES` and `DecryptAES` -/

/-- The random source `rand.Reader`: the bytes it hands out, and the error it
reports, if any. -/
structure RandReader where
  bytes : Nat → Byte
  err : GoErr

/-- The call `io.ReadFull(rand.Reader, buf)` for a buffer of `n` bytes: the
content of the buffer after the call, and the error. -/
def ReadFull (r : RandReader) (n : Nat) : Bytes × GoErr := ((List.range n).map r.bytes, r.err)

/-- The function `EncryptAES` of symmetricKeyAES.go.  The Go strings `text` and the result
are byte strings. -/
def EncryptAES (rand : RandReader) (key text : Bytes) : Outcome (Bytes × GoErr) :=
  match NewCipher key with
  | .error e => .returned ([], some e)
  | .ok block =>
    let (iv, err) := ReadFull rand BlockSize
    if err.isSome then .returned ([], err)
    else
      match newCFB block iv false with
      | .panicked msg => .panicked msg
      | .returned stream =>
        let cipherText := iv ++ stream.XORKeyStream text
        .returned (EncodeToString cipherText, none)

/-- The function `DecryptAES` of symmetricKeyAES.go.  The slice `data` that `DecodeString`
returns has the capacity `len(cipherText) / 4 * 3`; the slice expression
`data[:aes.BlockSize]` panics when that capacity is below 16, and
`data[aes.BlockSize:]` when the length of `data` is. -/
def DecryptAES (key cipherText : Bytes) : Outcome (Bytes × GoErr) :=
  match DecodeString cipherText with
  | .error e => .returned ([], some e)
  | .ok data =>
    match NewCipher key with
    | .error e => .returned ([], some e)
    | .ok block =>
      let capacity := cipherText.length / 4 * 3
      if BlockSize > capacity then
        .panicked ("runtime error: slice bounds out of range [:" ++ toString BlockSize
          ++ "] with capacity " ++ toString capacity)
      else if BlockSize > data.length then
        .panicked ("runtime error: slice bounds out of range [" ++ toString BlockSize ++ ":"
          ++ toString data.length ++ "]")
      else
        let iv := data.take BlockSize
        let data := data.drop BlockSize
        match newCFB block iv true with
        | .panicked msg => .panicked msg
        | .returned stream => .returned (stream.XORKeyStream data, none)

/-- A random source for the examples: byte `i` is `3 * i + 1`, no error. -/
def demoRand : RandReader where
  bytes := fun i => Fin.ofNat (3 * i + 1)
  err := none

/-- A key of 32 bytes for the examples: the bytes 0, 1, ..., 31. -/
def demoKey : Bytes := (List.range 32).map fun i => Fin.ofNat i

/-! ## Providers for the examples -/

/-- A KEM scheme whose `Encapsulate` returns a ciphertext of 3 bytes where the
scheme declares 4, and whose `Decapsulate` rejects a ciphertext of the wrong
length. -/
def shortCiphertextKEM : KemScheme where
  GenerateKeyPair := (some [1], some [2], none)
  Encapsulate := fun _ => ([7, 7], [9, 9, 9], none)
  Decapsulate := fun _ ct =>
    if ct.length = 4 then ([7, 7], none) else ([], some "kem: ciphertext size mismatch")
  EncapsulationSeedSize := 4
  CiphertextSize := 4
  SharedKeySize := 2

/-- A KEM scheme with the declared sizes of "DemoKEM768" whose `Encapsulate`
returns the ciphertext first and the secret second, and whose `Decapsulate`
rejects a ciphertext that has not the declared length. -/
def ciphertextFirstKEM : KemScheme where
  GenerateKeyPair := (some [1], some [2], none)
  Encapsulate := fun _ => (List.replicate 1088 9, List.replicate 32 7, none)
  Decapsulate := fun _ ct =>
    if ct.length = 1088 then (List.replicate 32 7, none)
    else ([], some "kem: ciphertext size mismatch")
  EncapsulationSeedSize := 32
  CiphertextSize := 1088
  SharedKeySize := 32

/-- A KEM scheme without entropy: `GenerateKeyPair` fails and returns nil
keys, `Encapsulate` fails on the nil key, `Decapsulate` on the nil key. -/
def noEntropyKEM : KemScheme where
  GenerateKeyPair := (none, none, some "entropy unavailable")
  Encapsulate := fun pk =>
    if pk.isNone then ([], [], some "kem: type mismatch") else ([7, 7], [9, 9, 9, 9], none)
  Decapsulate := fun sk _ =>
    if sk.isNone then ([], some "kem: type mismatch") else ([7, 7], none)
  EncapsulationSeedSize := 4
  CiphertextSize := 4
  SharedKeySize := 2

/-- A signature scheme whose keys cannot be marshalled. -/
def failingMarshalSign : SignScheme where
  DeriveKey := fun _ =>
    .returned (some ⟨([], some "marshal failed")⟩, some ⟨([], some "marshal failed")⟩)
  SeedSize := 32

/-! # Theorems -/

set_option maxRecDepth 100000

/-! ## Lemmas on runs -/

/-- Sequencing after a run that returned. -/
theorem Run.bind_returned {α β : Type} (es : List Event) (a : α) (f : α → Run β) :
    ((⟨es, .returned a⟩ : Run α) >>= f) = ⟨es ++ (f a).events, (f a).outcome⟩ := rfl

/-- Sequencing after a step without events. -/
theorem Run.pure_bind {α β : Type} (a : α) (f : α → Run β) :
    ((pure a : Run α) >>= f) = f a := by
  show Run.bind _ _ = _
  simp [Run.bind, pure]

/-- Sequencing after a conditional log line. -/
theorem Run.logIf_bind {β : Type} (c : Prop) [Decidable c] (m : String) (f : Unit → Run β) :
    ((if c then logPrintf m else pure ()) >>= f)
      = ⟨(if c then [Event.log m] else []) ++ (f ()).events, (f ()).outcome⟩ := by
  split <;> rfl

/-- Sequencing after a conditional log line, condition negated. -/
theorem Run.logUnless_bind {β : Type} (c : Prop) [Decidable c] (m : String) (f : Unit → Run β) :
    ((if c then pure () else logPrintf m) >>= f)
      = ⟨(if c then [] else [Event.log m]) ++ (f ()).events, (f ()).outcome⟩ := by
  split <;> rfl

/-! ## `KyberExample` -/

/-- For every resolved scheme, whatever the provider returns, `KyberExample`
returns after it has called `Encapsulate` on the public key of
`GenerateKeyPair` and `Decapsulate` on the private key and the ciphertext of
`Encapsulate`; and when the length of that ciphertext differs from the
encapsulation seed size, the mismatch is logged. -/
theorem KyberExample_runs_every_step (ByName : String → Option KemScheme) (s : KemScheme)
    (h : ByName "Kyber768" = some s) :
    (KyberExample ByName).outcome = .returned ()
    ∧ Event.call (.Encapsulate s.GenerateKeyPair.1) ∈ (KyberExample ByName).events
    ∧ Event.call (.Decapsulate s.GenerateKeyPair.2.1 (s.Encapsulate s.GenerateKeyPair.1).2.1)
        ∈ (KyberExample ByName).events
    ∧ ((s.Encapsulate s.GenerateKeyPair.1).2.1.length ≠ s.EncapsulationSeedSize →
        Event.log ("Ciphertext size mismatch: Expected " ++ toString s.EncapsulationSeedSize
          ++ ", got " ++ toString (s.Encapsulate s.GenerateKeyPair.1).2.1.length)
          ∈ (KyberExample ByName).events) := by
  simp only [KyberExample, h]
  simp [Run.logIf_bind, Run.logUnless_bind, Run.pure_bind, KemScheme.callGenerateKeyPair,
    KemScheme.callEncapsulate, KemScheme.callEncapsulationSeedSize, KemScheme.callDecapsulate,
    called, stdout, Run.bind_returned]
  constructor
  · split <;> rfl
  · intro hne
    simp [hne]

/-- C1, the run at a ciphertext of the wrong size.  The scheme declares 4
bytes (also as the size `KyberExample` expects) and `Encapsulate` returns 3:
the mismatch is logged, and `Decapsulate` is called on that ciphertext all
the same; the run goes on to the comparison of the secrets. -/
theorem KyberExample_decapsulates_after_size_mismatch :
    KyberExample (demoRegistry shortCiphertextKEM) =
      ⟨[.stdout "Generating keypair for recipient...\n",
        .call .GenerateKeyPair,
        .stdout "Recipient's keypair generated successfully!\n",
        .stdout "Sender is encapsulating shared secret...\n",
        .call (.Encapsulate (some [1])),
        .stdout "Shared secret encapsulated successfully!\n",
        .call .EncapsulationSeedSize,
        .stdout "Expected Ciphertext Size: 4 bytes\n",
        .stdout "Actual Ciphertext Size: 3 bytes\n",
        .log "Ciphertext size mismatch: Expected 4, got 3",
        .stdout "Recipient is decapsulating shared secret...\n",
        .call (.Decapsulate (some [2]) [9, 9, 9]),
        .log "Decapsulation failed: kem: ciphertext size mismatch",
        .stdout "Shared secret decapsulated successfully!\n",
        .stdout "Shared secrets do not match! Key exchange failed!\n"],
       .returned ()⟩ := by
  decide

/-- C2, the run at the scheme of scenario "DemoKEM768".  The scheme declares
seed length 32, ciphertext length 1088 and shared-secret length 32, its
`Encapsulate` returns a ciphertext of 1088 bytes and its `Decapsulate`
returns the sender's secret; `KyberExample` takes the encapsulation seed size
32 as the expected ciphertext size and logs a ciphertext-size mismatch. -/
theorem KyberExample_demoKEM768_reports_size_mismatch :
    (demoKEM768.EncapsulationSeedSize = 32 ∧ demoKEM768.CiphertextSize = 1088
      ∧ demoKEM768.SharedKeySize = 32)
    ∧ ((demoKEM768.Encapsulate demoKEM768.GenerateKeyPair.1).2.1.length = demoKEM768.CiphertextSize
      ∧ demoKEM768.Decapsulate demoKEM768.GenerateKeyPair.2.1
          (demoKEM768.Encapsulate demoKEM768.GenerateKeyPair.1).2.1
        = ((demoKEM768.Encapsulate demoKEM768.GenerateKeyPair.1).1, none))
    ∧ KyberExample (demoRegistry demoKEM768) =
      ⟨[.stdout "Generating keypair for recipient...\n",
        .call .GenerateKeyPair,
        .stdout "Recipient's keypair generated successfully!\n",
        .stdout "Sender is encapsulating shared secret...\n",
        .call (.Encapsulate (some [1])),
        .stdout "Shared secret encapsulated successfully!\n",
        .call .EncapsulationSeedSize,
        .stdout "Expected Ciphertext Size: 32 bytes\n",
        .stdout "Actual Ciphertext Size: 1088 bytes\n",
        .log "Ciphertext size mismatch: Expected 32, got 1088",
        .stdout "Recipient is decapsulating shared secret...\n",
        .call (.Decapsulate (some [2]) (List.replicate 1088 9)),
        .stdout "Shared secret decapsulated successfully!\n",
        .stdout "Shared secrets match! Key exchange successful!\n"],
       .returned ()⟩ := by
  decide

/-- The run at a provider that returns the ciphertext first: `KyberExample`
takes the 32-byte secret for the ciphertext, the size check against the
encapsulation seed size 32 passes, `Decapsulate` fails on it and the secrets
do not match. -/
theorem KyberExample_ciphertext_first_provider :
    KyberExample (demoRegistry ciphertextFirstKEM) =
      ⟨[.stdout "Generating keypair for recipient...\n",
        .call .GenerateKeyPair,
        .stdout "Recipient's keypair generated successfully!\n",
        .stdout "Sender is encapsulating shared secret...\n",
        .call (.Encapsulate (some [1])),
        .stdout "Shared secret encapsulated successfully!\n",
        .call .EncapsulationSeedSize,
        .stdout "Expected Ciphertext Size: 32 bytes\n",
        .stdout "Actual Ciphertext Size: 32 bytes\n",
        .stdout "Recipient is decapsulating shared secret...\n",
        .call (.Decapsulate (some [2]) (List.replicate 32 7)),
        .log "Decapsulation failed: kem: ciphertext size mismatch",
        .stdout "Shared secret decapsulated successfully!\n",
        .stdout "Shared secrets do not match! Key exchange failed!\n"],
       .returned ()⟩ := by
  decide

/-! ## Unknown schemes and failing provider calls -/

/-- C3, the runs at a scheme name without implementation.  `KyberExample`
logs that the scheme was not found, prints that it generates the key pair and
panics at `scheme.GenerateKeyPair()` on the nil scheme;
`DilithiumKeyGeneration` logs and panics at `scheme.DeriveKey(seed)`. -/
theorem unknown_scheme_logged_then_nil_dereference :
    KyberExample (fun _ => none) =
      ⟨[.log "Scheme Kyber768 not found", .stdout "Generating keypair for recipient...\n"],
       .panicked "runtime error: invalid memory address or nil pointer dereference"⟩
    ∧ DilithiumKeyGeneration (fun _ => none) "NoSuchScheme" "" "" =
      ⟨[.log "Scheme NoSuchScheme not found"],
       .panicked "runtime error: invalid memory address or nil pointer dereference"⟩ := by
  decide

/-- C7, the runs at failing provider calls.  In `KyberExample`, after
`GenerateKeyPair` has returned an error `Encapsulate` is called (on the nil
key), and after `Encapsulate` has returned an error `Decapsulate` is called
and a verdict is printed.  In `DilithiumKeyGeneration`, after `MarshalBinary`
has returned an error for both keys, both are fingerprinted (as the empty
byte string) and success is printed. -/
theorem runs_proceed_past_failed_provider_calls :
    KyberExample (demoRegistry noEntropyKEM) =
      ⟨[.stdout "Generating keypair for recipient...\n",
        .call .GenerateKeyPair,
        .log "Key generation failed: entropy unavailable",
        .stdout "Recipient's keypair generated successfully!\n",
        .stdout "Sender is encapsulating shared secret...\n",
        .call (.Encapsulate none),
        .log "Encapsulation failed: kem: type mismatch",
        .stdout "Shared secret encapsulated successfully!\n",
        .call .EncapsulationSeedSize,
        .stdout "Expected Ciphertext Size: 4 bytes\n",
        .stdout "Actual Ciphertext Size: 0 bytes\n",
        .log "Ciphertext size mismatch: Expected 4, got 0",
        .stdout "Recipient is decapsulating shared secret...\n",
        .call (.Decapsulate none []),
        .log "Decapsulation failed: kem: type mismatch",
        .stdout "Shared secret decapsulated successfully!\n",
        .stdout "Shared secrets match! Key exchange successful!\n"],
       .returned ()⟩
    ∧ DilithiumKeyGeneration (demoSignRegistry failingMarshalSign) "Dilithium2"
        "46b9dd2b0ba88d13233b3feb743eeb24" "46b9dd2b0ba88d13233b3feb743eeb24" =
      ⟨[.call (.DeriveKey fixedSeed),
        .call (.MarshalBinary ⟨([], some "marshal failed")⟩),
        .log "Failed to marshal public key: marshal failed",
        .call (.MarshalBinary ⟨([], some "marshal failed")⟩),
        .log "Failed to marshal secret key: marshal failed",
        .stdout "Generated Public Key Hash: 46b9dd2b0ba88d13233b3feb743eeb24\n",
        .stdout "Generated Secret Key Hash: 46b9dd2b0ba88d13233b3feb743eeb24\n",
        .stdout "Key generation and verification successful!\n"],
       .returned ()⟩ := by
  decide

/-! ## `hexHash` -/

/-- Squeezing `k` bytes gives `k` bytes. -/
theorem squeeze_length (k : Nat) (d : ShakeState) : (ShakeState.squeeze k d).length = k := by
  induction k generalizing d with
  | zero => rfl
  | succ k ih => simp [ShakeState.squeeze, ih]

/-- The first `k` bytes of a longer output are the output of length `k`. -/
theorem squeeze_take (k m : Nat) (d : ShakeState) :
    (ShakeState.squeeze (k + m) d).take k = ShakeState.squeeze k d := by
  induction k generalizing d with
  | zero => simp [ShakeState.squeeze]
  | succ k ih =>
    have e : k + 1 + m = (k + m) + 1 := by omega
    rw [e]
    simp [ShakeState.squeeze, ih]

/-- Shifting distributes over xor. -/
theorem shiftLeft_xor_shiftLeft (x y k : Nat) : (x <<< k) ^^^ (y <<< k) = (x ^^^ y) <<< k := by
  apply Nat.eq_of_testBit_eq
  intro j
  simp only [Nat.testBit_xor, Nat.testBit_shiftLeft]
  by_cases h : j ≥ k <;> simp [h]

/-- A byte xored with a number shifted past it is their sum. -/
theorem byte_xor_shifted (b x : Nat) (hb : b < 256) : b ^^^ (x <<< 8) = b + 256 * x := by
  apply Nat.eq_of_testBit_eq
  intro j
  have e : b + 256 * x = 2 ^ 8 * x + b := by omega
  rw [e, Nat.testBit_mul_pow_two_add x (by omega : b < 2 ^ 8) j]
  simp only [Nat.testBit_xor, Nat.testBit_shiftLeft]
  by_cases h : j < 8
  · have h2 : ¬ j ≥ 8 := by omega
    simp [h, h2]
  · have h2 : j ≥ 8 := by omega
    have h3 : b.testBit j = false := by
      apply Nat.testBit_lt_two_pow
      calc b < 2 ^ 8 := by omega
        _ ≤ 2 ^ j := Nat.pow_le_pow_right (by decide) h2
    simp [h, h2, h3]

/-- Nothing is xored into an empty state. -/
theorem xorBytesAt_nil_state (pos : Nat) (bs : Bytes) : xorBytesAt [] pos bs = [] := by
  induction bs generalizing pos with
  | nil => rfl
  | cons b bs ih => simp [xorBytesAt, xorByteAt, ih]

/-- Xoring a byte string is xoring its two parts one after the other. -/
theorem xorBytesAt_append (a : List Nat) (pos : Nat) (x y : Bytes) :
    xorBytesAt a pos (x ++ y) = xorBytesAt (xorBytesAt a pos x) (pos + x.length) y := by
  induction x generalizing a pos with
  | nil => rfl
  | cons b x ih =>
    have e : pos + (x.length + 1) = pos + 1 + x.length := by omega
    show xorBytesAt (xorByteAt a pos b) (pos + 1) (x ++ y) = _
    rw [ih]
    simp only [xorBytesAt, List.length_cons, e]

/-- Bytes at positions past the first lane leave the first lane alone. -/
theorem xorBytesAt_later_lane (lane : Nat) (rest : List Nat) (pos : Nat) (bs : Bytes)
    (h : 8 ≤ pos) :
    xorBytesAt (lane :: rest) pos bs = lane :: xorBytesAt rest (pos - 8) bs := by
  induction bs generalizing rest pos with
  | nil => rfl
  | cons b bs ih =>
    have h1 : ¬ pos < 8 := by omega
    have h2 : pos + 1 - 8 = pos - 8 + 1 := by omega
    simp only [xorBytesAt, xorByteAt, h1, if_false]
    rw [ih _ _ (by omega), h2]

/-- Bytes within the first lane xor their little-endian value, shifted to
their position, into that lane. -/
theorem xorBytesAt_first_lane (lane : Nat) (rest : List Nat) (pos : Nat) (bs : Bytes)
    (h : pos + bs.length ≤ 8) :
    xorBytesAt (lane :: rest) pos bs = (lane ^^^ (laneOfBytes bs <<< (8 * pos))) :: rest := by
  induction bs generalizing lane pos with
  | nil => simp [xorBytesAt, laneOfBytes]
  | cons b bs ih =>
    simp only [List.length_cons] at h
    have h1 : pos < 8 := by omega
    simp only [xorBytesAt, xorByteAt, h1, if_true, laneOfBytes]
    rw [ih _ _ (by omega), Nat.xor_assoc]
    congr 2
    have e : 8 * (pos + 1) = 8 + 8 * pos := by omega
    rw [e, Nat.shiftLeft_add, shiftLeft_xor_shiftLeft, byte_xor_shifted _ _ b.isLt]

/-- Xoring the empty block changes nothing. -/
theorem xorBlock_nil_block (a : List Nat) : xorBlock a [] = a := by
  induction a with
  | nil => rfl
  | cons lane rest ih => simp [xorBlock, laneOfBytes, ih]

/-- Xoring a block byte by byte from position 0 is xoring it lane by lane. -/
theorem xorBytesAt_eq_xorBlock (a : List Nat) (block : Bytes) :
    xorBytesAt a 0 block = xorBlock a block := by
  induction a generalizing block with
  | nil => simp [xorBytesAt_nil_state, xorBlock]
  | cons lane rest ih =>
    rw [xorBlock]
    conv => lhs; rw [← List.take_append_drop 8 block]
    rw [xorBytesAt_append, xorBytesAt_first_lane _ _ _ _ (by simp)]
    simp only [Nat.mul_zero, Nat.shiftLeft_zero, Nat.zero_add]
    by_cases h : 8 ≤ block.length
    · have e : (List.take 8 block).length = 8 := by simp [h]
      rw [e, xorBytesAt_later_lane _ _ _ _ (by omega), ih]
    · have e : List.drop 8 block = [] := by
        apply List.drop_eq_nil_of_le
        omega
      rw [e, xorBlock_nil_block]
      rfl

/-- The method `Write` on input that does not fill the block: the bytes are
xored in, the position moves on, no permutation. -/
theorem Write_within_block (bs : Bytes) (a : List Nat) (n : Nat) (h : n + bs.length < rate) :
    ShakeState.Write ⟨a, n⟩ bs = ⟨xorBytesAt a n bs, n + bs.length⟩ := by
  induction bs generalizing a n with
  | nil => rfl
  | cons b bs ih =>
    simp only [List.length_cons] at h
    have h1 : ¬ n + 1 = rate := by omega
    have e : n + (bs.length + 1) = n + 1 + bs.length := by omega
    simp only [ShakeState.Write, h1, if_false, xorBytesAt, List.length_cons, e]
    exact ih _ _ (by omega)

/-- The method `Write` on input that fills the block exactly: the bytes are
xored in, the state is permuted, and the rest is written from position 0. -/
theorem Write_fills_block (bs rest : Bytes) (a : List Nat) (n : Nat) (hne : bs ≠ [])
    (h : n + bs.length = rate) :
    ShakeState.Write ⟨a, n⟩ (bs ++ rest)
      = ShakeState.Write ⟨keccakF1600 (xorBytesAt a n bs), 0⟩ rest := by
  induction bs generalizing a n with
  | nil => exact absurd rfl hne
  | cons b bs ih =>
    simp only [List.length_cons] at h
    by_cases h1 : n + 1 = rate
    · have hb : bs = [] := by
        apply List.eq_nil_of_length_eq_zero
        omega
      subst hb
      simp only [List.cons_append, ShakeState.Write, h1, if_true, xorBytesAt]
      rfl
    · have hb : bs ≠ [] := by
        intro hb
        subst hb
        simp only [List.length_nil] at h
        omega
      simp only [List.cons_append, ShakeState.Write, h1, if_false, xorBytesAt]
      exact ih _ _ hb (by omega)

/-- Xoring a zero byte changes nothing. -/
theorem xorByteAt_zero (a : List Nat) (pos : Nat) : xorByteAt a pos 0 = a := by
  induction a generalizing pos with
  | nil => rfl
  | cons lane rest ih =>
    rw [xorByteAt]
    split
    · simp
    · rw [ih]

/-- Xoring zero bytes changes nothing. -/
theorem xorBytesAt_zeros (a : List Nat) (pos k : Nat) :
    xorBytesAt a pos (List.replicate k 0) = a := by
  induction k generalizing pos with
  | zero => rfl
  | succ k ih => simp only [List.replicate_succ, xorBytesAt, xorByteAt_zero, ih]

/-- The suffix byte 0x1f and the final byte 0x80 at the same position are the
byte 0x9f. -/
theorem xorByteAt_suffix_and_final (a : List Nat) (pos : Nat) :
    xorByteAt (xorByteAt a pos 0x1f) pos 0x80 = xorByteAt a pos 0x9f := by
  induction a generalizing pos with
  | nil => rfl
  | cons lane rest ih =>
    by_cases h : pos < 8
    · simp only [xorByteAt, h, if_true]
      rw [Nat.xor_assoc, shiftLeft_xor_shiftLeft]
      rfl
    · simp only [xorByteAt, h, if_false, ih]

/-- The padded message fills whole blocks: one more than the message has full
blocks. -/
theorem shakePad_length (m : Bytes) : (shakePad m).length = (m.length / rate + 1) * rate := by
  have hr : rate = 136 := rfl
  have hm := Nat.mod_lt m.length (by decide : 0 < rate)
  have hd := Nat.div_add_mod m.length rate
  unfold shakePad
  split
  · simp only [List.length_append, List.length_cons, List.length_nil]
    rw [hr] at *
    omega
  · simp only [List.length_append, List.length_cons, List.length_nil, List.length_replicate]
    rw [hr] at *
    omega

/-- Padding leaves a leading full block alone. -/
theorem shakePad_block (block rest : Bytes) (h : block.length = rate) :
    shakePad (block ++ rest) = block ++ shakePad rest := by
  have e : (block ++ rest).length % rate = rest.length % rate := by
    rw [List.length_append, h, Nat.add_mod_left]
  unfold shakePad
  rw [e]
  split <;> simp

/-- The last block: xoring the padded rest of the message is xoring the rest,
then the suffix byte after it, then the final byte at the end of the block. -/
theorem xorBlock_shakePad (a : List Nat) (inp : Bytes) (h : inp.length < rate) :
    xorBlock a (shakePad inp)
      = xorByteAt (xorByteAt (xorBytesAt a 0 inp) inp.length 0x1f) (rate - 1) 0x80 := by
  have hr : rate = 136 := rfl
  have hmod : inp.length % rate = inp.length := Nat.mod_eq_of_lt h
  rw [← xorBytesAt_eq_xorBlock]
  unfold shakePad
  rw [hmod]
  split
  · rename_i h1
    have e : rate - 1 = inp.length := by omega
    rw [xorBytesAt_append, e, xorByteAt_suffix_and_final]
    simp only [xorBytesAt, Nat.zero_add]
  · rename_i h1
    have e : inp.length + 1 + (rate - inp.length - 2) = rate - 1 := by omega
    rw [xorBytesAt_append, xorBytesAt_append, xorBytesAt_append, xorBytesAt_zeros]
    simp only [xorBytesAt, List.length_append, List.length_cons, List.length_nil,
      List.length_replicate, Nat.zero_add, e]

/-- Writing a message of `n` bytes and ending the absorbing phase is absorbing
the blocks of the padded message. -/
theorem padAndPermute_Write_of_length (n : Nat) : ∀ (inp : Bytes) (a : List Nat),
    inp.length = n →
    (ShakeState.Write ⟨a, 0⟩ inp).padAndPermute
      = ⟨absorbBlocks ((shakePad inp).length / rate) a (shakePad inp), 0⟩ := by
  have hr : 0 < rate := by decide
  induction n using Nat.strong_induction_on with
  | _ n ih =>
    intro inp a hn
    have hlen := shakePad_length inp
    have hdiv : (shakePad inp).length / rate = inp.length / rate + 1 := by
      rw [hlen, Nat.mul_div_cancel _ hr]
    rw [hdiv]
    by_cases h : inp.length < rate
    · have h0 : inp.length / rate = 0 := Nat.div_eq_of_lt h
      have htake : (shakePad inp).take rate = shakePad inp := by
        apply List.take_of_length_le
        rw [hlen, h0]
        omega
      rw [Write_within_block inp a 0 (by omega), h0]
      simp only [ShakeState.padAndPermute, absorbBlocks, htake, xorBlock_shakePad a inp h,
        Nat.zero_add]
    · have hge : rate ≤ inp.length := by omega
      have hsplit : inp = inp.take rate ++ inp.drop rate := (List.take_append_drop rate inp).symm
      have htl : (inp.take rate).length = rate := by
        rw [List.length_take]
        omega
      have hne : inp.take rate ≠ [] := by
        intro e
        rw [e] at htl
        exact absurd htl.symm (by decide)
      have hdl : (inp.drop rate).length < n := by
        rw [List.length_drop]
        omega
      have hq : inp.length / rate = (inp.drop rate).length / rate + 1 := by
        rw [List.length_drop]
        have := Nat.add_div_right (inp.length - rate) hr
        have e : inp.length - rate + rate = inp.length := by omega
        rw [e] at this
        rw [this]
      have hW : ShakeState.Write ⟨a, 0⟩ inp
          = ShakeState.Write ⟨keccakF1600 (xorBytesAt a 0 (inp.take rate)), 0⟩ (inp.drop rate) := by
        conv => lhs; rw [hsplit]
        exact Write_fills_block _ _ a 0 hne (by omega)
      have hP : shakePad inp = inp.take rate ++ shakePad (inp.drop rate) := by
        conv => lhs; rw [hsplit]
        exact shakePad_block _ _ htl
      have hih := ih _ hdl (inp.drop rate) (keccakF1600 (xorBytesAt a 0 (inp.take rate))) rfl
      have hdiv2 : (shakePad (inp.drop rate)).length / rate = (inp.drop rate).length / rate + 1 := by
        rw [shakePad_length, Nat.mul_div_cancel _ hr]
      rw [hW, hih, hdiv2, hq, hP]
      have e1 : (inp.take rate ++ shakePad (inp.drop rate)).take rate = inp.take rate := by
        exact List.take_left' htl
      have e2 : (inp.take rate ++ shakePad (inp.drop rate)).drop rate
          = shakePad (inp.drop rate) := by
        exact List.drop_left' htl
      conv => rhs; rw [absorbBlocks]
      rw [e1, e2, xorBytesAt_eq_xorBlock]

/-- Writing a message and ending the absorbing phase is absorbing the blocks
of the padded message. -/
theorem padAndPermute_Write (inp : Bytes) (a : List Nat) :
    (ShakeState.Write ⟨a, 0⟩ inp).padAndPermute
      = ⟨absorbBlocks ((shakePad inp).length / rate) a (shakePad inp), 0⟩ :=
  padAndPermute_Write_of_length inp.length inp a rfl

/-- The byte at a position of the state, as arithmetic. -/
theorem byteAt_eq (a : List Nat) (pos : Nat) :
    byteAt a pos = Fin.ofNat (a.getD (pos / 8) 0 / 256 ^ (pos % 8) % 256) := by
  unfold byteAt
  rw [Nat.shiftRight_eq_div_pow, Nat.pow_mul]

/-- A block of output has `rate` bytes. -/
theorem stateBytes_length (a : List Nat) : (stateBytes a).length = rate := by
  simp [stateBytes]

/-- The output from a position within the first block on starts with the byte
of the state at that position. -/
theorem squeezeBlocks_drop (m : Nat) (a : List Nat) (n : Nat) (hm : 0 < m) (hn : n < rate) :
    (squeezeBlocks m a).drop n = byteAt a n :: (squeezeBlocks m a).drop (n + 1) := by
  obtain ⟨m, rfl⟩ : ∃ k, m = k + 1 := ⟨m - 1, by omega⟩
  have hlt : n < (squeezeBlocks (m + 1) a).length := by
    rw [squeezeBlocks, List.length_append, stateBytes_length]
    omega
  rw [List.drop_eq_getElem_cons hlt]
  congr 1
  have hn2 : n < (stateBytes a).length := by rw [stateBytes_length]; exact hn
  have e : (squeezeBlocks (m + 1) a)[n] = (stateBytes a)[n] := by
    simp only [squeezeBlocks]
    exact List.getElem_append_left hn2
  rw [e, byteAt_eq]
  simp [stateBytes]

/-- Squeezing byte by byte from a position gives the bytes of the output
blocks from that position on. -/
theorem squeeze_eq_squeezeBlocks (k : Nat) : ∀ (a : List Nat) (n m : Nat),
    n ≤ rate → n + k ≤ m * rate →
    ShakeState.squeeze k ⟨a, n⟩ = ((squeezeBlocks m a).drop n).take k := by
  induction k with
  | zero => intro a n m _ _; simp [ShakeState.squeeze]
  | succ k ih =>
    have hr : rate = 136 := rfl
    have step : ∀ (a : List Nat) (n m : Nat), n < rate → n + (k + 1) ≤ m * rate →
        ShakeState.squeeze (k + 1) ⟨a, n⟩ = ((squeezeBlocks m a).drop n).take (k + 1) := by
      intro a n m hn hm
      have hm0 : 0 < m := by
        rcases Nat.eq_zero_or_pos m with h | h
        · subst h; omega
        · exact h
      have h1 : ¬ n = rate := by omega
      rw [squeezeBlocks_drop m a n hm0 hn]
      simp only [ShakeState.squeeze, h1, if_false, List.take_succ_cons]
      rw [ih a (n + 1) m (by omega) (by omega)]
    intro a n m hn hm
    by_cases h : n < rate
    · exact step a n m h hm
    · have hn2 : n = rate := by omega
      subst hn2
      obtain ⟨m, rfl⟩ : ∃ j, m = j + 1 := ⟨m - 1, by
        rcases Nat.eq_zero_or_pos m with h0 | h0
        · subst h0; omega
        · omega⟩
      have hm2 : 0 + (k + 1) ≤ m * rate := by
        rw [Nat.add_mul, Nat.one_mul] at hm
        omega
      have hs := step (keccakF1600 a) 0 m (by decide) hm2
      have e : (squeezeBlocks (m + 1) a).drop rate = squeezeBlocks m (keccakF1600 a) := by
        rw [squeezeBlocks]
        exact List.drop_left' (stateBytes_length a)
      rw [e]
      simp only [List.drop_zero] at hs
      rw [← hs]
      simp only [ShakeState.squeeze, if_true]
      have h0 : ¬ (0 : Nat) = rate := by decide
      simp only [h0, if_false]

/-- The streaming hash refines the definition: `Write` of the message followed
by `Read` of `d` bytes is SHAKE256 of the message with `d` bytes of output,
for every message and every `d`. -/
theorem Read_eq_SHAKE256 (inp : Bytes) (d : Nat) :
    (NewShake256.Write inp).Read d = SHAKE256 inp d := by
  have hr : 0 < rate := by decide
  have hd : 0 + d ≤ (d / rate + 1) * rate := by
    have := Nat.div_add_mod d rate
    have := Nat.mod_lt d hr
    rw [Nat.add_mul, Nat.mul_comm]
    omega
  unfold ShakeState.Read SHAKE256 NewShake256
  rw [padAndPermute_Write, squeeze_eq_squeezeBlocks d _ 0 (d / rate + 1) (Nat.zero_le _) hd]
  rfl

/-- The output of SHAKE256 has the length asked for. -/
theorem SHAKE256_length (inp : Bytes) (d : Nat) : (SHAKE256 inp d).length = d := by
  rw [← Read_eq_SHAKE256]
  exact squeeze_length _ _

/-- A shorter output of SHAKE256 is the beginning of a longer one. -/
theorem SHAKE256_take (inp : Bytes) (d e : Nat) (h : d ≤ e) :
    (SHAKE256 inp e).take d = SHAKE256 inp d := by
  obtain ⟨m, rfl⟩ : ∃ m, e = d + m := ⟨e - d, by omega⟩
  rw [← Read_eq_SHAKE256, ← Read_eq_SHAKE256]
  exact squeeze_take _ _ _

/-- Both hex digits of a byte are characters of the table. -/
theorem hex_digits_in_table : ∀ v : Byte,
    hextable.getD (v.val >>> 4) '0' ∈ hextable ∧ hextable.getD (v.val &&& 0x0f) '0' ∈ hextable := by
  decide

/-- Hex encoding doubles the length. -/
theorem hexEncodeToString_length (src : Bytes) :
    (hexEncodeToString src).length = 2 * src.length := by
  induction src with
  | nil => rfl
  | cons v rest ih =>
    simp only [hexEncodeToString, String.length, List.flatMap_cons, List.length_append,
      List.length_cons, List.length_nil] at ih ⊢
    omega

/-- Hex encoding uses the characters of the table only. -/
theorem hexEncodeToString_chars (src : Bytes) :
    ∀ c ∈ (hexEncodeToString src).toList, c ∈ hextable := by
  intro c hc
  have e : (hexEncodeToString src).toList = src.flatMap fun v =>
      [hextable.getD (v.val >>> 4) '0', hextable.getD (v.val &&& 0x0f) '0'] := rfl
  rw [e, List.mem_flatMap] at hc
  obtain ⟨v, -, hv⟩ := hc
  rw [List.mem_cons, List.mem_singleton] at hv
  rcases hv with rfl | rfl
  · exact (hex_digits_in_table v).1
  · exact (hex_digits_in_table v).2

/-- C5: for every input, the empty one included, `hexHash` is the hex encoding
of the first 16 bytes of SHAKE256 of the input as FIPS 202 defines it (the
padded input absorbed block by block, then the state read off), which is what
the library gives when the input is written and a buffer of 16 bytes is read;
that output has exactly 16 bytes and is the beginning of every longer output;
the result has exactly 32 characters, whatever the length of the input, and
each is one of `0123456789abcdef`; equal inputs give equal results. -/
theorem hexHash_is_hex_of_16_squeezed_bytes (inp : Bytes) :
    hexHash inp = hexEncodeToString (SHAKE256 inp 16)
    ∧ (NewShake256.Write inp).Read 16 = SHAKE256 inp 16
    ∧ (SHAKE256 inp 16).length = 16
    ∧ (∀ d, 16 ≤ d → (SHAKE256 inp d).take 16 = SHAKE256 inp 16)
    ∧ (∀ m, ((NewShake256.Write inp).Read (16 + m)).take 16 = (NewShake256.Write inp).Read 16)
    ∧ (hexHash inp).length = 32
    ∧ (∀ c ∈ (hexHash inp).toList, c ∈ "0123456789abcdef".toList)
    ∧ ∀ inp2, inp2 = inp → hexHash inp2 = hexHash inp := by
  refine ⟨?_, Read_eq_SHAKE256 inp 16, SHAKE256_length inp 16,
    fun d h => SHAKE256_take inp 16 d h, fun m => squeeze_take _ _ _, ?_, ?_, ?_⟩
  · rw [← Read_eq_SHAKE256]
    rfl
  · simp [hexHash, hexEncodeToString_length, ShakeState.Read, squeeze_length]
  · exact hexEncodeToString_chars _
  · intro inp2 h
    rw [h]

/-- C5, instances: the seed of `DilithiumKeyGeneration` (32 bytes) and an input
of 137 bytes, one more than a block, with the values of their fingerprints. -/
theorem hexHash_is_hex_of_16_squeezed_bytes_witness :
    (hexHash fixedSeed = "69f07c8840ce80024db30939882c3d5b"
      ∧ hexHash fixedSeed = hexEncodeToString (SHAKE256 fixedSeed 16)
      ∧ (hexHash fixedSeed).length = 32
      ∧ hexHash fixedSeed = hexHash fixedSeed)
    ∧ (hexHash ((List.range 137).map fun i => Fin.ofNat (7 * i + 3))
        = "3c983983487bcbe74feba53b35bb1e05"
      ∧ hexHash ((List.range 137).map fun i => Fin.ofNat (7 * i + 3))
        = hexEncodeToString (SHAKE256 ((List.range 137).map fun i => Fin.ofNat (7 * i + 3)) 16)) :=
  ⟨⟨by decide, (hexHash_is_hex_of_16_squeezed_bytes fixedSeed).1,
    (hexHash_is_hex_of_16_squeezed_bytes fixedSeed).2.2.2.2.2.1,
    (hexHash_is_hex_of_16_squeezed_bytes fixedSeed).2.2.2.2.2.2.2 fixedSeed rfl⟩,
   ⟨by decide,
    (hexHash_is_hex_of_16_squeezed_bytes ((List.range 137).map fun i => Fin.ofNat (7 * i + 3))).1⟩⟩

/-- Known answer: the fingerprint of the empty byte string. -/
theorem hexHash_empty_input : hexHash [] = "46b9dd2b0ba88d13233b3feb743eeb24" := by decide

/-- Known answers of `hexHash` at inputs of 1, 135, 136 and 300 bytes (byte
`i` is `7 * i + 3`): below, at and above the length of one block. -/
theorem hexHash_known_answers :
    hexHash ((List.range 1).map fun i => Fin.ofNat (7 * i + 3))
      = "db4252337900d8ab7f609d170135d459"
    ∧ hexHash ((List.range 135).map fun i => Fin.ofNat (7 * i + 3))
      = "0213fc98352f009fafdf8ee1ea363914"
    ∧ hexHash ((List.range 136).map fun i => Fin.ofNat (7 * i + 3))
      = "c00f43811e5b4a38e14e3c06d8a5ce34"
    ∧ hexHash ((List.range 300).map fun i => Fin.ofNat (7 * i + 3))
      = "685d9873233fd4c7ce4bb15d7b947c98" := by
  decide

/-- Known answers of the definition: SHAKE256 of the empty message, 32 bytes,
and of the 32 bytes 0, 1, ..., 31, 16 bytes. -/
theorem SHAKE256_known_answers :
    hexEncodeToString (SHAKE256 [] 32)
      = "46b9dd2b0ba88d13233b3feb743eeb243fcd52ea62b81b82b50c27646ed5762f"
    ∧ hexEncodeToString (SHAKE256 fixedSeed 16) = "69f07c8840ce80024db30939882c3d5b" := by
  decide

/-! ## `DilithiumKeyGeneration` -/

/-- For every resolved scheme whose `DeriveKey` returns two keys, and whatever
`MarshalBinary` returns and the expected fingerprints are,
`DilithiumKeyGeneration` returns and the last thing it prints is the success
line; a fingerprint that differs from the expected one is logged with the
field, the expected and the actual value. -/
theorem DilithiumKeyGeneration_always_reports_success
    (ByName : String → Option SignScheme) (schemeName e1 e2 : String) (s : SignScheme)
    (pk sk : SignKey) (h : ByName schemeName = some s)
    (hd : s.DeriveKey fixedSeed = .returned (some pk, some sk)) :
    (DilithiumKeyGeneration ByName schemeName e1 e2).outcome = .returned ()
    ∧ (DilithiumKeyGeneration ByName schemeName e1 e2).events.getLast?
        = some (.stdout "Key generation and verification successful!\n")
    ∧ (hexHash pk.MarshalBinary.1 ≠ e1 →
        Event.log ("Expected public key hash: " ++ e1 ++ ", but got: "
          ++ hexHash pk.MarshalBinary.1) ∈ (DilithiumKeyGeneration ByName schemeName e1 e2).events)
    ∧ (hexHash sk.MarshalBinary.1 ≠ e2 →
        Event.log ("Expected secret key hash: " ++ e2 ++ ", but got: "
          ++ hexHash sk.MarshalBinary.1) ∈ (DilithiumKeyGeneration ByName schemeName e1 e2).events) := by
  simp only [DilithiumKeyGeneration, h]
  simp [Run.logIf_bind, Run.logUnless_bind, Run.pure_bind, SignScheme.callDeriveKey,
    SignKey.callMarshalBinary, called, stdout, Run.bind_returned, hd]
  refine ⟨?_, ?_, ?_⟩
  · split_ifs <;> simp
  · intro hne
    simp [hne]
  · intro hne
    simp [hne]

/-- C4, the run at a wrong expected secret-key fingerprint.  The expected
public-key fingerprint is the right one, the expected secret-key fingerprint
is not: the mismatch of the secret key is logged with the expected and the
actual value, and success is printed all the same. -/
theorem DilithiumKeyGeneration_reports_success_after_mismatch :
    DilithiumKeyGeneration (demoSignRegistry (demoSign 32)) "Dilithium2"
        "69f07c8840ce80024db30939882c3d5b" "00000000000000000000000000000000" =
      ⟨[.call (.DeriveKey fixedSeed),
        .call (.MarshalBinary ⟨(fixedSeed, none)⟩),
        .call (.MarshalBinary ⟨(fixedSeed.reverse, none)⟩),
        .stdout "Generated Public Key Hash: 69f07c8840ce80024db30939882c3d5b\n",
        .stdout "Generated Secret Key Hash: 690e34b580585338475914cb7e7fc6f9\n",
        .log ("Expected secret key hash: 00000000000000000000000000000000, "
          ++ "but got: 690e34b580585338475914cb7e7fc6f9"),
        .stdout "Key generation and verification successful!\n"],
       .returned ()⟩ := by
  decide

/-- The seed is the bytes 0, 1, ..., 31. -/
theorem fixedSeed_eq : fixedSeed = (List.range 32).map fun i => (Fin.ofNat i : Byte) := by decide

/-- The example schemes keep the contract of a provider that checks the seed. -/
theorem demoSign_rejectsOtherSeedLengths (seedSize : Nat) :
    (demoSign seedSize).rejectsOtherSeedLengths := by
  intro seed h
  exact ⟨_, if_neg h⟩

/-- C8: when `GetState` shows a value for `id`, `CreateAsset` returns the
error "asset id already exists" and the ledger is unchanged; when `GetState`
shows no value and marshalling and the write succeed, `CreateAsset` returns
no error and the ledger differs from the old one at the key `id` only, which
holds the JSON encoding of `Asset` with that `ID` and `Name`. -/
theorem CreateAsset_rejects_existing_and_adds_new
    (jsonMarshal : Asset → Bytes × GoErr) (stub : Stub) (id name : String) :
    (∀ v, stub.GetState id = (some v, none) →
      (CreateAsset jsonMarshal stub id name).2 = some ("asset " ++ id ++ " already exists")
      ∧ (CreateAsset jsonMarshal stub id name).1 = stub)
    ∧ (stub.GetState id = (none, none) → (jsonMarshal ⟨id, name⟩).2 = none →
        stub.writeFault id (jsonMarshal ⟨id, name⟩).1 = none →
      (CreateAsset jsonMarshal stub id name).2 = none
      ∧ (CreateAsset jsonMarshal stub id name).1.state id = some (jsonMarshal ⟨id, name⟩).1
      ∧ (∀ k, k ≠ id → (CreateAsset jsonMarshal stub id name).1.state k = stub.state k)
      ∧ (CreateAsset jsonMarshal stub id name).1.readFault = stub.readFault
      ∧ (CreateAsset jsonMarshal stub id name).1.writeFault = stub.writeFault) := by
  constructor
  · intro v hv
    simp [CreateAsset, hv]
  · intro hg hm hw
    simp [CreateAsset, hg, hm, Stub.PutState, hw]
    intro k hk
    simp [hk]

/-- C8, instances: on the ledger that holds `asset1`, creating `asset1`
again, and creating `asset2`. -/
theorem CreateAsset_rejects_existing_and_adds_new_witness :
    ((CreateAsset plainJSON demoLedger "asset1" "Asset One").2
        = some ("asset " ++ "asset1" ++ " already exists")
      ∧ (CreateAsset plainJSON demoLedger "asset1" "Asset One").1 = demoLedger)
    ∧ ((CreateAsset plainJSON demoLedger "asset2" "Asset Two").2 = none
      ∧ (CreateAsset plainJSON demoLedger "asset2" "Asset Two").1.state "asset2"
          = some (plainJSON ⟨"asset2", "Asset Two"⟩).1
      ∧ (∀ k, k ≠ "asset2" →
          (CreateAsset plainJSON demoLedger "asset2" "Asset Two").1.state k = demoLedger.state k)
      ∧ (CreateAsset plainJSON demoLedger "asset2" "Asset Two").1.readFault = demoLedger.readFault
      ∧ (CreateAsset plainJSON demoLedger "asset2" "Asset Two").1.writeFault
          = demoLedger.writeFault) :=
  ⟨(CreateAsset_rejects_existing_and_adds_new plainJSON demoLedger "asset1" "Asset One").1
      (plainJSON ⟨"asset1", "Asset One"⟩).1 (by decide),
   (CreateAsset_rejects_existing_and_adds_new plainJSON demoLedger "asset2" "Asset Two").2
      (by decide) (by decide) (by decide)⟩

/-! ## AES -/

/-- Known answers: the example vectors of FIPS 197 for keys of 16, 24 and 32
bytes (key 00 01 02 ..., plaintext 00 11 22 ... ff). -/
theorem encryptBlock_known_answers :
    hexEncodeToString (encryptBlock ((List.range 16).map fun i => Fin.ofNat i)
        ((List.range 16).map fun i => Fin.ofNat (17 * i))) = "69c4e0d86a7b0430d8cdb78070b4c55a"
    ∧ hexEncodeToString (encryptBlock ((List.range 24).map fun i => Fin.ofNat i)
        ((List.range 16).map fun i => Fin.ofNat (17 * i))) = "dda97ca4864cdfe06eaf70a0ec0d7191"
    ∧ hexEncodeToString (encryptBlock ((List.range 32).map fun i => Fin.ofNat i)
        ((List.range 16).map fun i => Fin.ofNat (17 * i))) = "8ea2b7ca516745bfeafc49904b496089" := by
  decide

/-! ## CFB mode -/

/-- Xor with the same byte twice gives the byte back. -/
theorem byte_xor_cancel (s k : Byte) : (s ^^^ k) ^^^ k = s := by
  apply Fin.ext
  show ((s.val ^^^ k.val) % 256 ^^^ k.val) % 256 = s.val
  have h1 : s.val ^^^ k.val < 2 ^ 8 := Nat.xor_lt_two_pow s.isLt k.isLt
  have h2 : (s.val ^^^ k.val) % 256 = s.val ^^^ k.val := Nat.mod_eq_of_lt h1
  rw [h2, Nat.xor_assoc, Nat.xor_self, Nat.xor_zero]
  exact Nat.mod_eq_of_lt s.isLt

/-- The stream output is as long as the input. -/
theorem XORKeyStream_length (x : cfb) (src : Bytes) : (x.XORKeyStream src).length = src.length := by
  induction src generalizing x with
  | nil => rfl
  | cons s src ih => simp [cfb.XORKeyStream, ih]

/-- CFB decryption undoes CFB encryption from the same register state, for any
block function. -/
theorem XORKeyStream_decrypt_encrypt (b : Bytes → Bytes) (next out : Bytes) (outUsed : Nat)
    (text : Bytes) :
    cfb.XORKeyStream ⟨b, next, out, outUsed, true⟩
      (cfb.XORKeyStream ⟨b, next, out, outUsed, false⟩ text) = text := by
  induction text generalizing next out outUsed with
  | nil => rfl
  | cons s src ih =>
    by_cases h : outUsed = BlockSize
    · simp [cfb.XORKeyStream, h, byte_xor_cancel, ih]
    · simp [cfb.XORKeyStream, h, byte_xor_cancel, ih]

/-! ## base64 -/

/-- An or with a number below the shift is an addition. -/
theorem shiftLeft_or_eq_add (x y i : Nat) (h : y < 2 ^ i) : x <<< i ||| y = x * 2 ^ i + y := by
  rw [Nat.shiftLeft_eq, Nat.mul_comm, ← Nat.mul_add_lt_is_or h]

/-- Three bytes packed into 24 bits, as arithmetic. -/
theorem pack3_eq (a b c : Nat) (hb : b < 256) (hc : c < 256) :
    a <<< 16 ||| b <<< 8 ||| c = a * 65536 + b * 256 + c := by
  have e1 : a <<< 16 ||| b <<< 8 = a * 2 ^ 16 + b <<< 8 :=
    shiftLeft_or_eq_add a (b <<< 8) 16 (by rw [Nat.shiftLeft_eq]; omega)
  have e2 : a * 2 ^ 16 + b <<< 8 = (a * 256 + b) <<< 8 := by
    rw [Nat.shiftLeft_eq, Nat.shiftLeft_eq]
    omega
  rw [e1, e2, shiftLeft_or_eq_add _ c 8 (by omega)]
  omega

/-- Four values of six bits packed into 24 bits, as arithmetic. -/
theorem pack4_eq (s0 s1 s2 s3 : Nat) (h1 : s1 < 64) (h2 : s2 < 64) (h3 : s3 < 64) :
    s0 <<< 18 ||| s1 <<< 12 ||| s2 <<< 6 ||| s3 = s0 * 262144 + s1 * 4096 + s2 * 64 + s3 := by
  rw [Nat.or_assoc, Nat.or_assoc, shiftLeft_or_eq_add s2 s3 6 (by omega),
    shiftLeft_or_eq_add s1 _ 12 (by omega), shiftLeft_or_eq_add s0 _ 18 (by omega)]
  omega

/-- A quantum of four characters decodes to the three bytes it was made from.
-/
theorem quantumBytes_four (a b c : Byte) :
    quantumBytes [((a.val <<< 16 ||| b.val <<< 8 ||| c.val) >>> 18) % 64,
      ((a.val <<< 16 ||| b.val <<< 8 ||| c.val) >>> 12) % 64,
      ((a.val <<< 16 ||| b.val <<< 8 ||| c.val) >>> 6) % 64,
      (a.val <<< 16 ||| b.val <<< 8 ||| c.val) % 64] = [a, b, c] := by
  have ha := a.isLt
  have hb := b.isLt
  have hc := c.isLt
  rw [pack3_eq _ _ _ hb hc]
  simp only [quantumBytes, List.getD_cons_zero, List.getD_cons_succ, Nat.shiftRight_eq_div_pow]
  rw [pack4_eq _ _ _ _ (Nat.mod_lt _ (by decide)) (Nat.mod_lt _ (by decide)) (Nat.mod_lt _ (by decide))]
  simp only [List.map_cons, List.map_nil, List.length_cons, List.length_nil]
  show [_, _, _] = _
  congr 1
  · apply Fin.ext
    show _ % 256 = _
    omega
  congr 1
  · apply Fin.ext
    show _ % 256 = _
    omega
  congr 1
  · apply Fin.ext
    show _ % 256 = _
    omega

/-- A quantum of three characters decodes to the two bytes it was made from.
-/
theorem quantumBytes_three (a b : Byte) :
    quantumBytes [((a.val <<< 16 ||| b.val <<< 8) >>> 18) % 64,
      ((a.val <<< 16 ||| b.val <<< 8) >>> 12) % 64,
      ((a.val <<< 16 ||| b.val <<< 8) >>> 6) % 64] = [a, b] := by
  have ha := a.isLt
  have hb := b.isLt
  have e : a.val <<< 16 ||| b.val <<< 8 = a.val * 65536 + b.val * 256 := by
    have := pack3_eq a.val b.val 0 hb (by omega)
    simpa using this
  rw [e]
  simp only [quantumBytes, List.getD_cons_zero, List.getD_cons_succ, List.getD_nil,
    Nat.shiftRight_eq_div_pow]
  rw [pack4_eq _ _ _ _ (Nat.mod_lt _ (by decide)) (Nat.mod_lt _ (by decide)) (by decide)]
  simp only [List.map_cons, List.map_nil, List.length_cons, List.length_nil]
  show [_, _] = _
  congr 1
  · apply Fin.ext
    show _ % 256 = _
    omega
  congr 1
  · apply Fin.ext
    show _ % 256 = _
    omega

/-- A quantum of two characters decodes to the byte it was made from. -/
theorem quantumBytes_two (a : Byte) :
    quantumBytes [((a.val <<< 16) >>> 18) % 64, ((a.val <<< 16) >>> 12) % 64] = [a] := by
  have ha := a.isLt
  simp only [quantumBytes, List.getD_cons_zero, List.getD_cons_succ, List.getD_nil,
    Nat.shiftRight_eq_div_pow]
  rw [pack4_eq _ _ _ _ (Nat.mod_lt _ (by decide)) (by decide) (by decide), Nat.shiftLeft_eq]
  simp only [List.map_cons, List.map_nil, List.length_cons, List.length_nil]
  show [_] = _
  congr 1
  · apply Fin.ext
    show _ % 256 = _
    omega

/-- The decoding table inverts the alphabet. -/
theorem decodeMap_encodeURL : ∀ s : Fin 64, decodeMap (encodeURL.getD s.val 0) = s.val := by
  decide

/-- The decoding table gives back the six bits of a character. -/
theorem decodeMap_encodeChar (v : Nat) : decodeMap (encodeChar v) = v % 64 := by
  have e : v &&& 0x3f = v % 64 := Nat.and_pow_two_sub_one_eq_mod v 6
  unfold encodeChar
  rw [e]
  exact decodeMap_encodeURL ⟨v % 64, Nat.mod_lt _ (by decide)⟩

/-- The decoder at a character of the alphabet. -/
theorem decodeFrom_encodeChar (v : Nat) (src : Bytes) (si : Nat) (dbuf : List Nat) (dst : Bytes) :
    decodeFrom (encodeChar v :: src) si dbuf dst =
      if dbuf.length = 3 then
        decodeFrom src (si + 1) [] (dst ++ quantumBytes (dbuf ++ [v % 64]))
      else decodeFrom src (si + 1) (dbuf ++ [v % 64]) dst := by
  have h : v % 64 ≠ 255 := by omega
  rw [decodeFrom]
  simp only [decodeMap_encodeChar, ne_eq, h, not_false_eq_true, if_true]

/-- The padding character is neither in the alphabet nor a line break. -/
theorem decodeMap_padChar : decodeMap padChar = 0xff ∧ padChar ≠ 10 ∧ padChar ≠ 13 := by decide

/-- The decoder at a padding character. -/
theorem decodeFrom_padChar (src : Bytes) (si : Nat) (dbuf : List Nat) (dst : Bytes) :
    decodeFrom (padChar :: src) si dbuf dst =
      if dbuf.length < 2 then .error (corruptInputError si)
      else if dbuf.length = 2 then
        match skipNewlines src (si + 1) with
        | ([], si1) => .error (corruptInputError si1)
        | (c2 :: rest, si1) =>
          if c2 ≠ padChar then .error (corruptInputError (si1 - 1))
          else afterPadding (dst ++ quantumBytes dbuf) rest (si1 + 1)
      else afterPadding (dst ++ quantumBytes dbuf) src (si + 1) := by
  rw [decodeFrom]
  simp only [decodeMap_padChar.1, decodeMap_padChar.2.1, decodeMap_padChar.2.2, ne_eq,
    not_true_eq_false, if_false, or_self]

/-- Skipping line breaks stops at a padding character. -/
theorem skipNewlines_padChar (src : Bytes) (si : Nat) :
    skipNewlines (padChar :: src) si = (padChar :: src, si) := by
  rw [skipNewlines]
  simp only [decodeMap_padChar.2.1, decodeMap_padChar.2.2, or_self, if_false]

/-- The decoder on an encoded string appends the encoded bytes. -/
theorem decodeFrom_EncodeToString (bs : Bytes) (si : Nat) (dst : Bytes) :
    decodeFrom (EncodeToString bs) si [] dst = .ok (dst ++ bs) := by
  induction bs using EncodeToString.induct generalizing si dst with
  | case1 a b c rest ih =>
    rw [EncodeToString]
    simp only [decodeFrom_encodeChar, List.length_nil, List.nil_append, List.length_cons,
      List.cons_append, List.length_singleton]
    simp only [Nat.reduceAdd, Nat.reduceEqDiff, if_false, if_true, ih]
    rw [quantumBytes_four]
    simp
  | case2 a b =>
    rw [EncodeToString]
    simp only [decodeFrom_encodeChar, decodeFrom_padChar, List.length_nil, List.nil_append,
      List.length_cons, List.cons_append, List.length_singleton]
    simp only [Nat.reduceAdd, Nat.reduceEqDiff, Nat.reduceLT, if_false, if_true]
    rw [quantumBytes_three]
    rfl
  | case3 a =>
    rw [EncodeToString]
    simp only [decodeFrom_encodeChar, decodeFrom_padChar, skipNewlines_padChar, List.length_nil,
      List.nil_append, List.length_cons, List.cons_append, List.length_singleton]
    simp only [Nat.reduceAdd, Nat.reduceEqDiff, Nat.reduceLT, if_false, if_true, ne_eq,
      not_true_eq_false]
    rw [quantumBytes_two]
    rfl
  | case4 => simp [EncodeToString, decodeFrom]

/-- Decoding undoes encoding. -/
theorem DecodeString_EncodeToString (bs : Bytes) : DecodeString (EncodeToString bs) = .ok bs := by
  simpa [DecodeString] using decodeFrom_EncodeToString bs 0 []

/-- The length of the encoding: four characters for every three bytes, rounded
up. -/
theorem EncodeToString_length (bs : Bytes) :
    (EncodeToString bs).length = (bs.length + 2) / 3 * 4 := by
  induction bs using EncodeToString.induct with
  | case1 a b c rest ih =>
    rw [EncodeToString]
    simp only [List.length_cons, ih]
    omega
  | case2 a b => simp [EncodeToString]
  | case3 a => simp [EncodeToString]
  | case4 => rfl

/-- A quantum gives at most three bytes, and fewer than it has characters. -/
theorem quantumBytes_length_le (dbuf : List Nat) :
    (quantumBytes dbuf).length ≤ 3 ∧ (quantumBytes dbuf).length ≤ dbuf.length - 1 := by
  simp only [quantumBytes, List.length_take, List.length_map, List.length_cons, List.length_nil]
  omega

/-- Skipping line breaks does not make the input longer. -/
theorem skipNewlines_length_le (src : Bytes) (si : Nat) :
    (skipNewlines src si).1.length ≤ src.length := by
  induction src generalizing si with
  | nil => simp [skipNewlines]
  | cons c rest ih =>
    rw [skipNewlines]
    split
    · exact Nat.le_succ_of_le (ih (si + 1))
    · simp

/-- After the padding nothing is decoded any more. -/
theorem afterPadding_ok (dst src : Bytes) (si : Nat) (data : Bytes)
    (h : afterPadding dst src si = .ok data) : data = dst := by
  unfold afterPadding at h
  split at h
  · simpa using h.symm
  · simp at h

/-- The decoder gives at most three bytes for every four characters. -/
theorem decodeFrom_length_le (src : Bytes) (si : Nat) (dbuf : List Nat) (dst data : Bytes)
    (h : decodeFrom src si dbuf dst = .ok data) :
    data.length ≤ dst.length + (dbuf.length + src.length) / 4 * 3 := by
  induction src generalizing si dbuf dst with
  | nil =>
    rw [decodeFrom] at h
    split at h
    · simp at h
      subst h
      omega
    · simp at h
  | cons c src ih =>
    have hq := quantumBytes_length_le dbuf
    rw [decodeFrom] at h
    split at h
    · split at h
      · have := ih _ _ _ h
        have hq2 := quantumBytes_length_le (dbuf ++ [decodeMap c])
        simp only [List.length_append, List.length_cons, List.length_nil] at this hq2 ⊢
        omega
      · have := ih _ _ _ h
        simp only [List.length_append, List.length_cons, List.length_nil] at this ⊢
        omega
    · split at h
      · have := ih _ _ _ h
        simp only [List.length_cons] at this ⊢
        omega
      · split at h
        · simp at h
        · split at h
          · simp at h
          · split at h
            · have hs := skipNewlines_length_le src (si + 1)
              split at h
              · simp at h
              · rename_i c2 rest si1 heq
                rw [heq] at hs
                split at h
                · simp at h
                · have := afterPadding_ok _ _ _ _ h
                  subst this
                  simp only [List.length_append, List.length_cons] at hs ⊢
                  omega
            · have := afterPadding_ok _ _ _ _ h
              subst this
              simp only [List.length_append, List.length_cons]
              omega

/-- The decoded bytes fit the capacity of the slice `DecodeString` allocates.
-/
theorem DecodeString_length_le (s data : Bytes) (h : DecodeString s = .ok data) :
    data.length ≤ s.length / 4 * 3 := by
  have := decodeFrom_length_le s 0 [] [] data h
  simpa using this

/-- Known answers of the encoder, with both characters that set the URL
alphabet apart and both kinds of padding. -/
theorem EncodeToString_known_answers :
    EncodeToString [0xfb, 0xff, 0xbe] = asciiBytes "-_--"
    ∧ EncodeToString [0xfb, 0xff] = asciiBytes "-_8="
    ∧ EncodeToString (asciiBytes "A") = asciiBytes "QQ=="
    ∧ EncodeToString [] = [] := by
  decide

/-- Known answers of the decoder: line breaks are skipped, a string that is
not base64 is an error with the offset of the fault. -/
theorem DecodeString_known_answers :
    DecodeString (asciiBytes "QU\r\nJD\n") = .ok (asciiBytes "ABC")
    ∧ DecodeString (asciiBytes "QUJ") = .error "illegal base64 data at input byte 0"
    ∧ DecodeString (asciiBytes "QUJD=") = .error "illegal base64 data at input byte 4"
    ∧ DecodeString (asciiBytes "QQ==QUJD") = .error "illegal base64 data at input byte 4"
    ∧ DecodeString (asciiBytes "QU+D") = .error "illegal base64 data at input byte 2" := by
  decide

/-! ## `EncryptAES` and `DecryptAES` -/

/-- The buffer read has the length asked for. -/
theorem ReadFull_length (r : RandReader) (n : Nat) : (ReadFull r n).1.length = n := by
  simp [ReadFull]

/-- Decryption of the encoding of an IV followed by the encrypted text. -/
theorem DecryptAES_EncodeToString (key iv text : Bytes)
    (hkey : key.length = 16 ∨ key.length = 24 ∨ key.length = 32) (hiv : iv.length = BlockSize) :
    DecryptAES key (EncodeToString
      (iv ++ cfb.XORKeyStream ⟨encryptBlock key, iv, List.replicate BlockSize 0, BlockSize, false⟩
        text)) = .returned (text, none) := by
  have hnc : NewCipher key = .ok (encryptBlock key) := by simp [NewCipher, hkey]
  have hcap : ¬ BlockSize > (EncodeToString
      (iv ++ cfb.XORKeyStream ⟨encryptBlock key, iv, List.replicate BlockSize 0, BlockSize, false⟩
        text)).length / 4 * 3 := by
    rw [EncodeToString_length, List.length_append, hiv, XORKeyStream_length]
    unfold BlockSize
    omega
  have hlen : ¬ BlockSize > (iv ++ cfb.XORKeyStream
      ⟨encryptBlock key, iv, List.replicate BlockSize 0, BlockSize, false⟩ text).length := by
    rw [List.length_append, hiv]
    omega
  have htake : (iv ++ cfb.XORKeyStream
      ⟨encryptBlock key, iv, List.replicate BlockSize 0, BlockSize, false⟩ text).take BlockSize
      = iv := by
    rw [← hiv, List.take_left]
  have hdrop : (iv ++ cfb.XORKeyStream
      ⟨encryptBlock key, iv, List.replicate BlockSize 0, BlockSize, false⟩ text).drop BlockSize
      = cfb.XORKeyStream ⟨encryptBlock key, iv, List.replicate BlockSize 0, BlockSize, false⟩
        text := by
    rw [← hiv, List.drop_left]
  unfold DecryptAES
  simp only [DecodeString_EncodeToString, hnc, hcap, hlen, if_false, htake, hdrop, newCFB, hiv,
    ne_eq, not_true_eq_false, XORKeyStream_decrypt_encrypt]

/-- With a key of valid length and a random source that does not fail,
`EncryptAES` returns a ciphertext without error; it does not panic. -/
theorem EncryptAES_returns (rand : RandReader) (key text : Bytes)
    (hkey : key.length = 16 ∨ key.length = 24 ∨ key.length = 32) (hrand : rand.err = none) :
    ∃ c, EncryptAES rand key text = .returned (c, none) := by
  have hnc : NewCipher key = .ok (encryptBlock key) := by simp [NewCipher, hkey]
  simp [EncryptAES, hnc, ReadFull, hrand, newCFB]

/-- C9: for every key of 16, 24 or 32 bytes, every text and every random
source, if `EncryptAES` returns `c` without error then `DecryptAES` on `c`
returns exactly the text without error, and `c` is the URL-safe base64
encoding of the 16-byte IV read from the random source followed by as many
ciphertext bytes as the text has bytes, `16 + len(text)` bytes in total. -/
theorem DecryptAES_EncryptAES (rand : RandReader) (key text c : Bytes)
    (hkey : key.length = 16 ∨ key.length = 24 ∨ key.length = 32)
    (henc : EncryptAES rand key text = .returned (c, none)) :
    DecryptAES key c = .returned (text, none)
    ∧ ∃ iv ct : Bytes, iv = (ReadFull rand 16).1 ∧ iv.length = 16 ∧ ct.length = text.length
        ∧ (iv ++ ct).length = 16 + text.length
        ∧ c = EncodeToString (iv ++ ct) := by
  have hiv : (ReadFull rand BlockSize).1.length = BlockSize := ReadFull_length rand BlockSize
  have hnc : NewCipher key = .ok (encryptBlock key) := by simp [NewCipher, hkey]
  have herr : rand.err = none := by
    cases he : rand.err with
    | none => rfl
    | some e => simp [EncryptAES, hnc, ReadFull, he] at henc
  have hc : c = EncodeToString ((ReadFull rand BlockSize).1 ++ cfb.XORKeyStream
      ⟨encryptBlock key, (ReadFull rand BlockSize).1, List.replicate BlockSize 0, BlockSize, false⟩
      text) := by
    simp only [EncryptAES, hnc, ReadFull, herr, newCFB, List.length_map, List.length_range] at henc
    simp at henc
    rw [← henc]
    rfl
  refine ⟨?_, (ReadFull rand 16).1, _, rfl, hiv, XORKeyStream_length _ text, ?_, hc⟩
  · rw [hc]
    exact DecryptAES_EncodeToString key _ text hkey hiv
  · rw [List.length_append, XORKeyStream_length]
    exact congrArg (· + text.length) hiv

/-- C9, an instance: the 32-byte key 0, 1, ..., 31 and the text of
`AESExample`. -/
theorem DecryptAES_EncryptAES_witness :
    (demoKey.length = 16 ∨ demoKey.length = 24 ∨ demoKey.length = 32)
    ∧ EncryptAES demoRand demoKey (asciiBytes "Hello, Golang Cryptography!")
        = .returned (asciiBytes "AQQHCg0QExYZHB8iJSgrLvnyCtPHKPoA91Dy-ICEl3gmCbTE8YqaZvwixw==", none)
    ∧ DecryptAES demoKey (asciiBytes "AQQHCg0QExYZHB8iJSgrLvnyCtPHKPoA91Dy-ICEl3gmCbTE8YqaZvwixw==")
        = .returned (asciiBytes "Hello, Golang Cryptography!", none) :=
  ⟨by decide, by decide,
   (DecryptAES_EncryptAES demoRand demoKey (asciiBytes "Hello, Golang Cryptography!")
      (asciiBytes "AQQHCg0QExYZHB8iJSgrLvnyCtPHKPoA91Dy-ICEl3gmCbTE8YqaZvwixw==")
      (by decide) (by decide)).1⟩

/-- The function `DecryptAES` panics exactly when the key has a valid length and the input
decodes to fewer than 16 bytes; on every other input it returns. -/
theorem DecryptAES_panics_iff (key c : Bytes) :
    (∃ msg, DecryptAES key c = .panicked msg) ↔
      ∃ data, DecodeString c = .ok data ∧ data.length < 16
        ∧ (key.length = 16 ∨ key.length = 24 ∨ key.length = 32) := by
  unfold DecryptAES
  cases hd : DecodeString c with
  | error e => simp
  | ok data =>
    by_cases hkey : key.length = 16 ∨ key.length = 24 ∨ key.length = 32
    · have hnc : NewCipher key = .ok (encryptBlock key) := by simp [NewCipher, hkey]
      simp only [hnc, Except.ok.injEq, exists_eq_left', hkey, and_true]
      by_cases h1 : BlockSize > c.length / 4 * 3
      · have h2 : data.length < 16 := by
          have := DecodeString_length_le c data hd
          unfold BlockSize at h1
          omega
        simp [h1, h2]
      · by_cases h2 : BlockSize > data.length
        · have h3 : data.length < 16 := h2
          simp [h1, h2, h3]
        · have h3 : ¬ data.length < 16 := h2
          have h4 : (List.take BlockSize data).length = BlockSize := by
            rw [List.length_take]
            omega
          simp [h1, h2, h3, newCFB, h4]
    · have hnc : ∃ e, NewCipher key = .error e := by simp [NewCipher, hkey]
      obtain ⟨e, he⟩ := hnc
      simp [he, hkey]

/-- C10, the runs at short inputs.  With a key of 32 bytes, `DecryptAES`
panics on the empty string and on "QUJD" (which decodes to 3 bytes) at
`data[:aes.BlockSize]`, and on "QUJD" followed by 20 line feeds (capacity 18,
3 bytes) at `data[aes.BlockSize:]`; it returns neither a plaintext nor an
error. -/
theorem DecryptAES_panics_on_short_input :
    DecryptAES demoKey [] =
      .panicked "runtime error: slice bounds out of range [:16] with capacity 0"
    ∧ (DecodeString (asciiBytes "QUJD") = .ok (asciiBytes "ABC")
      ∧ DecryptAES demoKey (asciiBytes "QUJD") =
        .panicked "runtime error: slice bounds out of range [:16] with capacity 3")
    ∧ (DecodeString (asciiBytes "QUJD\n\n\n\n\n\n\n\n\n\n\n\n\n\n\n\n\n\n\n\n") = .ok (asciiBytes "ABC")
      ∧ DecryptAES demoKey (asciiBytes "QUJD\n\n\n\n\n\n\n\n\n\n\n\n\n\n\n\n\n\n\n\n") =
        .panicked "runtime error: slice bounds out of range [16:3]") := by
  decide

end CryptoExamples
